import Mathlib

/-!
# Family child auto-assignment engine: a verification development

Shallow embedding of the family auto-assignment subsystem of the
`giby-gubaye-backend` repository (`src/controllers/familyController.ts`,
functions `autoAssignChildren` and `executeAutoAssignChildren`, together with
the `Family` and `Student` schemas they read).

Modelling conventions:
* The document database is a pure value: a list of family documents plus a list
  of student documents.  Mongoose `populate` is modelled as a lookup of a
  student id in the student list.
* JavaScript `number` score arithmetic: every score the code computes is an
  integer multiple of `1/20` (mode scores are integers, the tie-breakers are
  multiples of `0.1` and `0.05`), so scores are modelled exactly by their
  numerator over the common denominator 20 (an `Int` equal to 20 times the
  JavaScript value: the mode score `n` contributes `20*n`, the `0.1` factor
  becomes `2`, the `0.05` factor becomes `1`, the `-1` selection sentinel is
  `-20`).  The double-precision evaluation of these expressions stays within
  `~1e-13` of the exact value, so it realises the same strict comparisons
  except possibly on exact rational ties, where the code's first-seen-wins
  rule resolves the choice; no theorem below depends on which side of an
  exact tie is taken, and the concrete runs used as counterexamples and
  witnesses are tie-free.
* `Date` values are modelled by the only projection the code uses: the year
  (`getFullYear`).  The ambient `new Date().getFullYear()` is passed in as an
  explicit `currentYear` parameter.
* Optional string fields (`region`, `zone`, `wereda`, `kebele`) are
  `Option String`; JavaScript truthiness of such a field (`undefined` and the
  empty string are falsy) is `jsTruthy`.
* Mongo's multi-document transaction of `executeAutoAssignChildren` is modelled
  by threading a staged database through the assignment list and discarding it
  (returning the initial database) when any step throws.
-/

namespace AutoAssign

/-- A populated student sub-document, restricted to the fields selected by the
queries in `autoAssignChildren` (`firstName lastName gender batch region zone
wereda kebele dateOfBirth gibyGubayeId`) plus `isActive`.  `gender` is the
schema enum string `"male"`/`"female"`; `birthYear` is the year of
`dateOfBirth` (`none` when the date is missing). -/
structure StudentInfo where
  id : String
  firstName : String := ""
  lastName : String := ""
  gender : String := "male"
  batch : String := ""
  region : Option String := none
  zone : Option String := none
  wereda : Option String := none
  kebele : Option String := none
  birthYear : Option Int := none
  isActive : Bool := true
deriving DecidableEq, Repr

/-- A child entry inside a parent-pair (`FamilyChildSchema`): a student
reference (its id string), the relationship enum string `"son"`/`"daughter"`
and the birth order.  The `addedAt` timestamp is wall-clock data not inspected
by any code path modelled here and is omitted. -/
structure ChildEntry where
  student : String
  relationship : String
  birthOrder : Int
deriving DecidableEq, Repr

/-- A parent-pair unit (`FamilyMemberSchema`): father/mother student references
(id strings; the contact sub-fields are never read by the engine) and the list
of children. -/
structure ParentPairDoc where
  father : String
  mother : String
  children : List ChildEntry
deriving DecidableEq, Repr

/-- A grandparent group (`GrandParentSchema`): optional grandfather/grandmother
student references and the list of parent-pair units. -/
structure GrandParentDoc where
  grandFather : Option String := none
  grandMother : Option String := none
  families : List ParentPairDoc
deriving DecidableEq, Repr

/-- A family document (`FamilySchema`), restricted to the fields read by the
auto-assignment engine. -/
structure FamilyDoc where
  id : String
  title : String
  batch : String
  allowOtherBatches : Bool := false
  status : String := "current"
  familyLeader : String
  familyCoLeader : String
  familySecretary : String
  grandParents : List GrandParentDoc
deriving DecidableEq, Repr

/-- The document database visible to the engine. -/
structure DB where
  families : List FamilyDoc
  students : List StudentInfo
deriving DecidableEq, Repr

/-- JavaScript truthiness of an optional string field: `undefined` and the
empty string are falsy. -/
def jsTruthy : Option String → Bool
  | none => false
  | some s => !s.isEmpty

/-- Mongoose `populate`: resolve a student reference against the student
collection (`null`, i.e. `none`, when the referenced document is missing). -/
def resolveStudent (db : DB) (id : String) : Option StudentInfo :=
  db.students.find? (fun s => s.id == id)

/-- The request body of `POST /families/auto-assign-children`, after the
destructuring defaults of the source (`maxChildrenPerFamily = 4`,
`considerGenderBalance = true`, `considerAge = true`).  `mode` and
`targetBatch` stay optional because the code tests them for truthiness.  The
`addressLevel` field is only echoed back in the response configuration and is
not part of the algorithm, so it is omitted. -/
structure AutoAssignReq where
  mode : Option String := none
  targetBatch : Option String := none
  maxChildrenPerFamily : Int := 4
  considerGenderBalance : Bool := true
  considerAge : Bool := true
deriving DecidableEq, Repr

/-- The validated configuration threaded through the allocator, together with
the ambient year used for age computations. -/
structure Config where
  mode : String
  targetBatch : String
  considerGenderBalance : Bool
  considerAge : Bool
  currentYear : Int
deriving DecidableEq, Repr

/-- Gender statistics of a parent-pair slot (counts of existing `son` /
`daughter` children). -/
structure GenderStats where
  sons : Nat
  daughters : Nat
deriving DecidableEq, Repr

/-- `Math.abs(sons - daughters)`. -/
def imbalance (gs : GenderStats) : Nat :=
  ((gs.sons : Int) - (gs.daughters : Int)).natAbs

/-- The source's `FamilyAssignment` record: one (family, grandparent index,
parent-pair index) slot prepared for allocation.  `familyBatch` carries the
family document's own `batch` field (reachable through the source's
`familyObject`), `studentsInThisFamilyDoc` the set of identifier strings
collected from the populated document. -/
structure Slot where
  familyId : String
  familyTitle : String
  allowOtherBatches : Bool
  familyBatch : String
  gpIndex : Nat
  familyIndex : Nat
  father : StudentInfo
  mother : StudentInfo
  existingChildrenCount : Nat
  genderStats : GenderStats
  capacity : Nat
  commonAddress : Option (String × String)
  studentsInThisFamilyDoc : List String
deriving DecidableEq, Repr

/-- One proposed assignment of the preview phase. -/
structure Assignment where
  familyId : String
  familyTitle : String
  gpIndex : Nat
  familyIndex : Nat
  studentId : String
  student : StudentInfo
  relationship : String
  birthOrder : Int
  addressMatch : Option String := none
  diversityScore : Option Int := none
deriving DecidableEq, Repr

/-- A non-fatal per-slot failure entry of the preview phase. -/
structure Failure where
  familyId : String
  familyTitle : String
  reason : String
deriving DecidableEq, Repr

/-- The preview payload, restricted to the parts the specification's testable
properties talk about (the statistics block is derived data recomputed from
`assignments` and is not re-modelled). -/
structure PreviewOut where
  assignments : List Assignment
  failedAssignments : List Failure
deriving DecidableEq, Repr

/-- `mode` after `getD`: the string compared against the two mode literals. -/
def modeOf (req : AutoAssignReq) : String := req.mode.getD ""

/-- `targetBatch` after `getD`. -/
def targetBatchOf (req : AutoAssignReq) : String := req.targetBatch.getD ""

/-- The baseline eligibility query
`{'grandParents.families': {$exists: true, $not: {$size: 0}}, status: 'current'}`:
the path exists (some grandparent group is present, each carrying its
defaulted `families` array) and no grandparent group has an empty `families`
array. -/
def familyQueryMatch (f : FamilyDoc) : Bool :=
  f.status == "current" && !f.grandParents.isEmpty &&
    f.grandParents.all (fun gp => !gp.families.isEmpty)

/-- Step 1 of the preview: the eligible-family read. -/
def eligibleFamilies (db : DB) : List FamilyDoc :=
  db.families.filter familyQueryMatch

/-- Step 2 of the preview: `Student.find({batch: targetBatch, isActive: true})`. -/
def studentsInBatch (db : DB) (targetBatch : String) : List StudentInfo :=
  db.students.filter (fun s => s.batch == targetBatch && s.isActive)

/-- The identifier-string set collected from one populated family document
(the source's `studentsInThisFamilyDoc`).  The three leader fields are raw
`ObjectId`s, so `toString()` yields their id strings.  `grandFather` /
`grandMother` were populated (and the query uses `.lean()`), so on a resolvable
reference `toString()` is `Object.prototype.toString` of a plain object, i.e.
the literal string `"[object Object]"`; an unresolvable reference is `null`
and contributes nothing.  Parents and children are populated but the code
reads `._id` explicitly, so they contribute their id strings when resolvable
and nothing otherwise. -/
def studentsInFamilyDocPreview (db : DB) (f : FamilyDoc) : List String :=
  [f.familyLeader, f.familyCoLeader, f.familySecretary]
    ++ f.grandParents.flatMap (fun gp =>
      ((gp.grandFather.bind (resolveStudent db)).map
          (fun _ => "[object Object]")).toList
        ++ ((gp.grandMother.bind (resolveStudent db)).map
          (fun _ => "[object Object]")).toList
        ++ gp.families.flatMap (fun fm =>
          ((resolveStudent db fm.father).map (fun s => s.id)).toList
            ++ ((resolveStudent db fm.mother).map (fun s => s.id)).toList
            ++ fm.children.filterMap (fun c =>
              (resolveStudent db c.student).map (fun s => s.id))))

/-- The most specific shared address level of father and mother, with its
value, mirroring the nested truthiness-and-equality tests of the source
(`father.region && mother.region && father.region === mother.region`, then
zone, wereda, kebele). -/
def commonAddress (father mother : StudentInfo) : Option (String × String) :=
  if jsTruthy father.region && jsTruthy mother.region && father.region == mother.region then
    if jsTruthy father.zone && jsTruthy mother.zone && father.zone == mother.zone then
      if jsTruthy father.wereda && jsTruthy mother.wereda && father.wereda == mother.wereda then
        if jsTruthy father.kebele && jsTruthy mother.kebele && father.kebele == mother.kebele then
          some ("kebele", father.kebele.getD "")
        else
          some ("wereda", father.wereda.getD "")
      else
        some ("zone", father.zone.getD "")
    else
      some ("region", father.region.getD "")
  else
    none

/-- Inner loop of the slot-preparation pass: walk the parent-pair units of one
grandparent group, keeping the running `familyIndex` counter.  A unit is
skipped when father or mother does not resolve, or when the family forbids
other batches and the parents are not both from the target batch. -/
def buildSlotsFam (db : DB) (targetBatch : String) (maxChildrenPerFamily : Int)
    (fam : FamilyDoc) (docSet : List String) (gpIndex : Nat) :
    Nat → List ParentPairDoc → List Slot
  | _, [] => []
  | familyIndex, fm :: rest =>
    let tail := buildSlotsFam db targetBatch maxChildrenPerFamily fam docSet gpIndex
      (familyIndex + 1) rest
    match resolveStudent db fm.father, resolveStudent db fm.mother with
    | some father, some mother =>
      let parentsFromTargetBatch := father.batch == targetBatch && mother.batch == targetBatch
      if !fam.allowOtherBatches && !parentsFromTargetBatch then tail
      else
        let sons := (fm.children.filter (fun c => c.relationship == "son")).length
        let daughters := (fm.children.filter (fun c => c.relationship == "daughter")).length
        { familyId := fam.id
          familyTitle := fam.title
          allowOtherBatches := fam.allowOtherBatches
          familyBatch := fam.batch
          gpIndex := gpIndex
          familyIndex := familyIndex
          father := father
          mother := mother
          existingChildrenCount := fm.children.length
          genderStats := { sons := sons, daughters := daughters }
          capacity := (maxChildrenPerFamily - (fm.children.length : Int)).toNat
          commonAddress := commonAddress father mother
          studentsInThisFamilyDoc := docSet } :: tail
    | _, _ => tail

/-- Outer loop of the slot-preparation pass: walk the grandparent groups of one
family, keeping the running `gpIndex` counter. -/
def buildSlotsGp (db : DB) (targetBatch : String) (maxChildrenPerFamily : Int)
    (fam : FamilyDoc) (docSet : List String) :
    Nat → List GrandParentDoc → List Slot
  | _, [] => []
  | gpIndex, gp :: rest =>
    buildSlotsFam db targetBatch maxChildrenPerFamily fam docSet gpIndex 0 gp.families
      ++ buildSlotsGp db targetBatch maxChildrenPerFamily fam docSet (gpIndex + 1) rest

/-- All `FamilyAssignment` records built from one eligible family. -/
def buildSlots (db : DB) (targetBatch : String) (maxChildrenPerFamily : Int)
    (fam : FamilyDoc) : List Slot :=
  buildSlotsGp db targetBatch maxChildrenPerFamily fam
    (studentsInFamilyDocPreview db fam) 0 fam.grandParents

/-- Step 4 of the preview: the full `familyAssignments` list. -/
def allSlots (db : DB) (targetBatch : String) (maxChildrenPerFamily : Int) : List Slot :=
  (eligibleFamilies db).flatMap (buildSlots db targetBatch maxChildrenPerFamily)

/-- The capacity filter and, in homogeneous mode, the common-address filter
producing `eligibleFamilyAssignments`. -/
def eligibleSlots (db : DB) (mode targetBatch : String) (maxChildrenPerFamily : Int) :
    List Slot :=
  let withCapacity := (allSlots db targetBatch maxChildrenPerFamily).filter
    (fun f => decide (0 < f.capacity))
  if mode == "homogeneous" then
    withCapacity.filter (fun f => f.commonAddress.isSome)
  else
    withCapacity

/-- The slot priority order of step 5, as a `Prop` relation: ascending by
number of existing children, ties broken by descending gender imbalance.  This
is exactly `comparator(a, b) ≤ 0` for the source's comparator. -/
def slotLE (a b : Slot) : Prop :=
  a.existingChildrenCount < b.existingChildrenCount ∨
    (a.existingChildrenCount = b.existingChildrenCount ∧
      imbalance b.genderStats ≤ imbalance a.genderStats)

instance : DecidableRel slotLE := fun a b =>
  inferInstanceAs (Decidable (a.existingChildrenCount < b.existingChildrenCount ∨
    (a.existingChildrenCount = b.existingChildrenCount ∧
      imbalance b.genderStats ≤ imbalance a.genderStats)))

instance : IsTotal Slot slotLE := by
  constructor; intro a b; unfold slotLE; omega

instance : IsTrans Slot slotLE := by
  constructor; intro a b c; unfold slotLE; omega

/-- Step 5: the sort.  `Array.prototype.sort` is a stable sort and the
comparator induces a total preorder, so its result is the unique stable
ordering, which `List.insertionSort` with `slotLE` computes. -/
def sortSlots (l : List Slot) : List Slot :=
  l.insertionSort slotLE

/-- The probing order for coarser homogeneous matches. -/
def levels : List String := ["kebele", "wereda", "zone", "region"]

/-- Dynamic address-field access `student[level]` for the four level names. -/
def addressField (s : StudentInfo) (level : String) : Option String :=
  if level == "region" then s.region
  else if level == "zone" then s.zone
  else if level == "wereda" then s.wereda
  else if level == "kebele" then s.kebele
  else none

/-- The coarser-level probing loop of the homogeneous branch, over the indexed
tail of `levels`: the first level where student and father both have a truthy
value and they agree scores `50 - j * 10` (with `j` the absolute index into
`levels`) and produces the matched level and the student's value. -/
def probeLevels (student father : StudentInfo) :
    List (Nat × String) → Option (Nat × String × String)
  | [] => none
  | (j, level) :: rest =>
    let sv := addressField student level
    let fv := addressField father level
    if jsTruthy sv && jsTruthy fv && sv == fv then
      some (50 - j * 10, level, sv.getD "")
    else
      probeLevels student father rest

/-- The indexed tail of `levels` starting at index `k`. -/
def levelsFrom (k : Nat) : List (Nat × String) :=
  ((List.range 4).drop k).map (fun j => (j, levels.getD j ""))

/-- The homogeneous-mode scoring block: exact match of the student's value at
the slot's common address level against the common value scores `100`;
otherwise the probe of coarser levels starting one above the slot's level; a
result of `0` means no match at any level (the candidate is skipped). -/
def homogeneousModeScore (level value : String) (father student : StudentInfo) :
    Nat × Option String :=
  let sv := addressField student level
  if jsTruthy sv && sv == some value then
    (100, some ("Matched " ++ level ++ ": " ++ sv.getD ""))
  else
    match probeLevels student father (levelsFrom (levels.indexOf level + 1)) with
    | some (score, lvl, sval) => (score, some ("Matched " ++ lvl ++ ": " ++ sval))
    | none => (0, none)

/-- The source's `calculateDiversityScore` helper, translated branch for
branch (JS `!==` on possibly-undefined strings is `!=` on `Option String`;
`child.zone && …` is a truthiness guard). -/
def calculateDiversityScore (child father mother : StudentInfo) : Nat :=
  if child.region != father.region && child.region != mother.region then
    4
  else if child.region == father.region || child.region == mother.region then
    if jsTruthy child.zone && (child.zone != father.zone || child.zone != mother.zone) then
      3
    else if jsTruthy child.zone && child.zone == father.zone && child.zone == mother.zone then
      if jsTruthy child.wereda && (child.wereda != father.wereda || child.wereda != mother.wereda) then
        2
      else if jsTruthy child.wereda && child.wereda == father.wereda && child.wereda == mother.wereda then
        if jsTruthy child.kebele && (child.kebele != father.kebele || child.kebele != mother.kebele) then
          1
        else 0
      else 0
    else 0
  else 0

/-- The source's `isAgeAppropriate` helper: passes when age checking is off or
any of the three birth dates is unknown; otherwise the candidate's age must
not exceed the older parent's age plus five years. -/
def isAgeAppropriate (cfg : Config) (child father mother : StudentInfo) : Bool :=
  if !cfg.considerAge || child.birthYear.isNone || father.birthYear.isNone
      || mother.birthYear.isNone then
    true
  else
    let childAge := cfg.currentYear - child.birthYear.getD 0
    let fatherAge := cfg.currentYear - father.birthYear.getD 0
    let motherAge := cfg.currentYear - mother.birthYear.getD 0
    childAge ≤ max fatherAge motherAge + 5

/-- The source's `getGenderPreference` helper: `"female"` when sons exceed
daughters, `"male"` when daughters exceed sons, else `"any"` (always `"any"`
when gender balancing is off). -/
def getGenderPreference (cfg : Config) (gs : GenderStats) : String :=
  if !cfg.considerGenderBalance then "any"
  else if gs.daughters < gs.sons then "female"
  else if gs.sons < gs.daughters then "male"
  else "any"

/-- One pass of the candidate-evaluation body of the inner `for` loop: the
three hard filters (batch compliance, age, gender preference), the mode score
(`none` when the candidate is skipped, including a mode score of `0`), and the
two tie-breaker addends.  Returns the candidate's total score (×20, see the
header) and address match description. -/
def evalCandidate (cfg : Config) (slot : Slot) (student : StudentInfo) :
    Option (Int × Option String) :=
  if !slot.allowOtherBatches && student.batch != cfg.targetBatch then none
  else if !isAgeAppropriate cfg student slot.father slot.mother then none
  else
    let genderPreference := getGenderPreference cfg slot.genderStats
    if genderPreference != "any" && student.gender != genderPreference then none
    else
      let modeScore : Option (Nat × Option String) :=
        if cfg.mode == "homogeneous" && slot.commonAddress.isSome then
          let lv := slot.commonAddress.getD ("", "")
          let r := homogeneousModeScore lv.1 lv.2 slot.father student
          if r.1 == 0 then none else some r
        else
          let d := calculateDiversityScore student slot.father slot.mother
          if d == 0 then none else some (d, none)
      match modeScore with
      | none => none
      | some (score, addressMatch) =>
        let tieAge : Int :=
          match student.birthYear with
          | some y => ((30 : Int) - (cfg.currentYear - y)) * 2
          | none => 0
        let genderNeed : Int := (imbalance slot.genderStats : Int)
        let tieGender : Int :=
          if genderPreference == student.gender then genderNeed * 1 else 0
        some (20 * (score : Int) + tieAge + tieGender, addressMatch)

/-- The best candidate found so far in the inner `for` loop. -/
structure Best where
  candidate : StudentInfo
  index : Nat
  score : Int
  addressMatch : Option String
deriving DecidableEq, Repr

/-- `bestScore`: the score of the best candidate so far, the sentinel `-1`
(`-20` in the ×20 representation) when none has been found yet. -/
def bestScoreOf : Option Best → Int
  | none => -20
  | some b => b.score

/-- The candidate scan: walk the available pool with its running index,
starting from `bestScore = -1` (`none`), replacing the best on a strictly
greater total score (first-seen wins on exact ties). -/
def pickBestAux (cfg : Config) (slot : Slot) :
    List StudentInfo → Nat → Option Best → Option Best
  | [], _, best => best
  | s :: rest, i, best =>
    let best' :=
      match evalCandidate cfg slot s with
      | none => best
      | some (total, am) =>
        if bestScoreOf best < total then
          some { candidate := s, index := i, score := total, addressMatch := am }
        else best
    pickBestAux cfg slot rest (i + 1) best'

/-- `pickBest`: the full scan of the available pool for one slot iteration. -/
def pickBest (cfg : Config) (slot : Slot) (pool : List StudentInfo) : Option Best :=
  pickBestAux cfg slot pool 0 none

/-- The `Assignment` record built for a selected best candidate: relationship
from the candidate's gender, birth order continuing the slot's existing
children, and the mode-specific score field (`addressMatch` in homogeneous
mode, the *total* best score — mode score plus tie-breakers — recorded as
`diversityScore` otherwise). -/
def mkAssignment (cfg : Config) (slot : Slot) (assignedCount : Nat) (best : Best) :
    Assignment :=
  let relationship := if best.candidate.gender == "male" then "son" else "daughter"
  { familyId := slot.familyId
    familyTitle := slot.familyTitle
    gpIndex := slot.gpIndex
    familyIndex := slot.familyIndex
    studentId := best.candidate.id
    student := best.candidate
    relationship := relationship
    birthOrder := (slot.existingChildrenCount : Int) + (assignedCount : Int) + 1
    addressMatch := if cfg.mode == "homogeneous" then best.addressMatch else none
    diversityScore := if cfg.mode == "homogeneous" then none else some best.score }

/-- The in-place update of the slot's running gender statistics after an
assignment. -/
def advanceSlot (slot : Slot) (best : Best) : Slot :=
  let relationship := if best.candidate.gender == "male" then "son" else "daughter"
  let gs := slot.genderStats
  { slot with genderStats :=
      if relationship == "son" then { gs with sons := gs.sons + 1 }
      else { gs with daughters := gs.daughters + 1 } }

/-- One slot's `while` loop.  `fuel` is the remaining capacity
(`capacity - assignedCount`), `assignedCount` the number already assigned to
this slot (used for birth order).  Each iteration either assigns the best
candidate (removing it from the pool by index, updating the slot's gender
statistics) or records one failure entry and stops. -/
def runSlot (cfg : Config) (slot : Slot) :
    Nat → List StudentInfo → Nat → List Assignment × List Failure
  | 0, _, _ => ([], [])
  | _ + 1, [], _ => ([], [])
  | fuel + 1, pool@(_ :: _), assignedCount =>
    match pickBest cfg slot pool with
    | none =>
      ([], [{ familyId := slot.familyId, familyTitle := slot.familyTitle,
              reason := "No suitable students available matching criteria" }])
    | some best =>
      let r := runSlot cfg (advanceSlot slot best) fuel
        (pool.eraseIdx best.index) (assignedCount + 1)
      (mkAssignment cfg slot assignedCount best :: r.1, r.2)

/-- The main assignment loop over the sorted slot list.  `claimed` is the
source's `newlyAssignedStudentIds`; each slot's available pool filters out
students already in that slot's family document and students already claimed
in this run. -/
def runAllSlots (cfg : Config) (allStudentsInBatch : List StudentInfo) :
    List Slot → List String → List Assignment × List Failure
  | [], _ => ([], [])
  | slot :: rest, claimed =>
    if slot.capacity == 0 then runAllSlots cfg allStudentsInBatch rest claimed
    else
      let pool := allStudentsInBatch.filter (fun s =>
        !slot.studentsInThisFamilyDoc.contains s.id && !claimed.contains s.id)
      let r1 := runSlot cfg slot slot.capacity pool 0
      let r2 := runAllSlots cfg allStudentsInBatch rest
        (claimed ++ r1.1.map (fun a => a.studentId))
      (r1.1 ++ r2.1, r1.2 ++ r2.2)

/-- The configuration record for a validated request. -/
def cfgOf (req : AutoAssignReq) (currentYear : Int) : Config :=
  { mode := modeOf req
    targetBatch := targetBatchOf req
    considerGenderBalance := req.considerGenderBalance
    considerAge := req.considerAge
    currentYear := currentYear }

/-- The sorted slot list actually processed by a run. -/
def processedSlots (db : DB) (req : AutoAssignReq) : List Slot :=
  sortSlots (eligibleSlots db (modeOf req) (targetBatchOf req) req.maxChildrenPerFamily)

/-- The preview payload of a validated run. -/
def previewResult (db : DB) (req : AutoAssignReq) (currentYear : Int) : PreviewOut :=
  let r := runAllSlots (cfgOf req currentYear)
    (studentsInBatch db (targetBatchOf req)) (processedSlots db req) []
  { assignments := r.1, failedAssignments := r.2 }

/-- The preview endpoint `autoAssignChildren`: parameter validation, the two
emptiness checks on the reads, the slot-eligibility check, then the allocation
run.  Every `.error` is an `errorResponse(res, msg, 400)` of the source; the
generic 500 catch-all cannot trigger in this pure model. -/
def autoAssignChildren (db : DB) (req : AutoAssignReq) (currentYear : Int) :
    Except String PreviewOut :=
  if !jsTruthy req.mode || !jsTruthy req.targetBatch then
    .error "Mode and target batch are required"
  else if modeOf req != "homogeneous" && modeOf req != "heterogeneous" then
    .error "Mode must be either \"homogeneous\" or \"heterogeneous\""
  else if (eligibleFamilies db).isEmpty then
    .error "No eligible families found (families with both parents)"
  else if (studentsInBatch db (targetBatchOf req)).isEmpty then
    .error ("No students found in batch " ++ targetBatchOf req)
  else if (eligibleSlots db (modeOf req) (targetBatchOf req) req.maxChildrenPerFamily).isEmpty then
    .error "No families available for assignment with current criteria"
  else
    .ok (previewResult db req currentYear)

/-- One assignment of the commit request body (the fields
`executeAutoAssignChildren` destructures). -/
structure AssignIn where
  familyId : String
  gpIndex : Nat
  familyIndex : Nat
  studentId : String
  relationship : String
  birthOrder : Int
deriving DecidableEq, Repr

/-- One entry of the commit response's `assignmentResults` (restricted to the
fields derived from modelled data; the display-name fields echo request-body
strings). -/
structure ExecResult where
  familyTitle : String
  relationship : String
  birthOrder : Int
deriving DecidableEq, Repr

/-- All student identifier strings present in a raw (unpopulated) family
document, as collected by the commit-phase conflict check: leaders,
grandparents, every father and mother, every child. -/
def familyStudentIds (f : FamilyDoc) : List String :=
  [f.familyLeader, f.familyCoLeader, f.familySecretary]
    ++ f.grandParents.flatMap (fun gp =>
      gp.grandFather.toList ++ gp.grandMother.toList
        ++ gp.families.flatMap (fun fm =>
          [fm.father, fm.mother] ++ fm.children.map (fun c => c.student)))

/-- Update the first list element satisfying `p` (the document with the given
`_id`). -/
def updateFirst (p : α → Bool) (g : α → α) : List α → List α
  | [] => []
  | x :: xs => if p x then g x :: xs else x :: updateFirst p g xs

/-- Modify the `n`-th element of a list, leaving the list unchanged when the
index is out of range. -/
def modifyNth (g : α → α) : Nat → List α → List α
  | _, [] => []
  | 0, x :: xs => g x :: xs
  | n + 1, x :: xs => x :: modifyNth g n xs

/-- Append a child entry to one parent-pair unit. -/
def pushPair (c : ChildEntry) (fm : ParentPairDoc) : ParentPairDoc :=
  { fm with children := fm.children ++ [c] }

/-- Append a child entry to the `familyIndex`-th parent-pair unit of a
grandparent group. -/
def pushGp (familyIndex : Nat) (c : ChildEntry) (gp : GrandParentDoc) : GrandParentDoc :=
  { gp with families := modifyNth (pushPair c) familyIndex gp.families }

/-- Append a child entry at the (grandparent, parent-pair) path of one family
document. -/
def pushDoc (gpIndex familyIndex : Nat) (c : ChildEntry) (f : FamilyDoc) : FamilyDoc :=
  { f with grandParents := modifyNth (pushGp familyIndex c) gpIndex f.grandParents }

/-- The `$push` at path `grandParents.<gpIndex>.families.<familyIndex>.children`
on the document with the given id (out-of-range indices are modelled as a
no-op; the claims only quantify over in-range slots). -/
def pushChild (db : List FamilyDoc) (familyId : String) (gpIndex familyIndex : Nat)
    (c : ChildEntry) : List FamilyDoc :=
  updateFirst (fun f => f.id == familyId) (pushDoc gpIndex familyIndex c) db

/-- The per-assignment loop of the commit transaction: re-read the target
family from the staged database, throw when it is missing or when the student
is already present anywhere in it, otherwise stage the `$push` of the child
entry. -/
def executeGo (db : List FamilyDoc) : List AssignIn → List ExecResult →
    Except String (List FamilyDoc × List ExecResult)
  | [], acc => .ok (db, acc.reverse)
  | a :: rest, acc =>
    match db.find? (fun f => f.id == a.familyId) with
    | none => .error ("Family " ++ a.familyId ++ " not found")
    | some family =>
      if (familyStudentIds family).contains a.studentId then
        .error ("Student " ++ a.studentId ++ " is already in family " ++ family.title)
      else
        executeGo
          (pushChild db a.familyId a.gpIndex a.familyIndex
            { student := a.studentId, relationship := a.relationship,
              birthOrder := a.birthOrder })
          rest
          ({ familyTitle := family.title, relationship := a.relationship,
             birthOrder := a.birthOrder } :: acc)

/-- The commit endpoint `executeAutoAssignChildren`.  An `.ok` value carries
the committed database; an `.error` is a thrown exception, after which
`abortTransaction` discards every staged write. -/
def executeAutoAssignChildren (db : List FamilyDoc) (assignments : List AssignIn) :
    Except String (List FamilyDoc × List ExecResult) :=
  if assignments.isEmpty then .error "No assignments to execute"
  else executeGo db assignments []

/-- The database as observed after the commit call returns: the committed
database on success, the untouched input database when the transaction
aborted. -/
def executeFinalDb (db : List FamilyDoc) (assignments : List AssignIn) : List FamilyDoc :=
  match executeAutoAssignChildren db assignments with
  | .ok (db', _) => db'
  | .error _ => db

/-- The error message of an `Except` result, when there is one. -/
def errorOf : Except String PreviewOut → Option String
  | .error e => some e
  | .ok _ => none

/-- The children list at a (family id, grandparent index, parent-pair index)
slot of a database ( `[]` when the path does not exist). -/
def childrenAt (db : List FamilyDoc) (familyId : String) (gpIndex familyIndex : Nat) :
    List ChildEntry :=
  match db.find? (fun f => f.id == familyId) with
  | none => []
  | some f =>
    match f.grandParents[gpIndex]? with
    | none => []
    | some gp =>
      match gp.families[familyIndex]? with
      | none => []
      | some fm => fm.children

/-! ## Scoring-level claims: the diversity cascade (C4) and the homogeneous
coarser-level scores (C5) -/

/-- Modelled from the spec's words (the cascade of claim C4): +4 when the
candidate's region differs from both parents' regions; otherwise +3 when the
zone differs from both; otherwise +2 when the wereda differs from both;
otherwise +1 when the kebele differs from both; otherwise 0. -/
def diversityScoreSpecCascade (child father mother : StudentInfo) : Nat :=
  if child.region != father.region && child.region != mother.region then 4
  else if child.zone != father.zone && child.zone != mother.zone then 3
  else if child.wereda != father.wereda && child.wereda != mother.wereda then 2
  else if child.kebele != father.kebele && child.kebele != mother.kebele then 1
  else 0

/-- The cascade the code actually computes, restated: +4 when the region
differs from both parents; otherwise descend level by level, at each level
scoring as soon as the candidate's (nonempty) value differs from *at least
one* parent's value, and descending further only when it equals both. -/
def diversityScoreAmendedCascade (child father mother : StudentInfo) : Nat :=
  if child.region != father.region && child.region != mother.region then 4
  else if !jsTruthy child.zone then 0
  else if child.zone != father.zone || child.zone != mother.zone then 3
  else if !jsTruthy child.wereda then 0
  else if child.wereda != father.wereda || child.wereda != mother.wereda then 2
  else if !jsTruthy child.kebele then 0
  else if child.kebele != father.kebele || child.kebele != mother.kebele then 1
  else 0

/-- C4 counterexample data: the candidate's zone equals the father's zone but
differs from the mother's; all regions, weredas and kebeles agree. -/
def c4Child : StudentInfo :=
  { id := "c", region := some "R", zone := some "Z1", wereda := some "W", kebele := some "K" }

/-- C4 counterexample: the father. -/
def c4Father : StudentInfo :=
  { id := "f", region := some "R", zone := some "Z1", wereda := some "W", kebele := some "K" }

/-- C4 counterexample: the mother (different zone). -/
def c4Mother : StudentInfo :=
  { id := "m", region := some "R", zone := some "Z2", wereda := some "W", kebele := some "K" }

/-- C4 is false as stated: a candidate whose zone matches the father's but
differs from the mother's receives +3 from the code, while the spec's
differs-from-both cascade yields 0. -/
theorem claim_C4_counterexample :
    calculateDiversityScore c4Child c4Father c4Mother = 3 ∧
      diversityScoreSpecCascade c4Child c4Father c4Mother = 0 := by
  constructor <;> rfl

/-- The two cascade shapes agree as functions of the eleven Boolean
comparisons they are built from. -/
lemma diversity_cascade_bool (rf rm tz zf zm tw wf wm tk kf km : Bool) :
    (if (!rf && !rm) = true then (4 : Nat)
     else if (rf || rm) = true then
       if (tz && (!zf || !zm)) = true then 3
       else if (tz && zf && zm) = true then
         if (tw && (!wf || !wm)) = true then 2
         else if (tw && wf && wm) = true then
           if (tk && (!kf || !km)) = true then 1 else 0
         else 0
       else 0
     else 0) =
    (if (!rf && !rm) = true then 4
     else if (!tz) = true then 0
     else if (!zf || !zm) = true then 3
     else if (!tw) = true then 0
     else if (!wf || !wm) = true then 2
     else if (!tk) = true then 0
     else if (!kf || !km) = true then 1
     else 0) := by
  revert rf rm tz zf zm tw wf wm tk kf km
  decide

/-- C4 (amended): the diversity score is the cascade that rewards, below the
region level, a nonempty candidate value differing from *at least one*
parent (not from both), descending only through levels where the candidate
equals both parents. -/
theorem claim_C4_amended (child father mother : StudentInfo) :
    calculateDiversityScore child father mother =
      diversityScoreAmendedCascade child father mother :=
  diversity_cascade_bool (child.region == father.region) (child.region == mother.region)
    (jsTruthy child.zone) (child.zone == father.zone) (child.zone == mother.zone)
    (jsTruthy child.wereda) (child.wereda == father.wereda) (child.wereda == mother.wereda)
    (jsTruthy child.kebele) (child.kebele == father.kebele) (child.kebele == mother.kebele)

/-- A student/father address match at one probing level: both values truthy
and equal. -/
def levelMatch (student father : StudentInfo) (level : String) : Bool :=
  jsTruthy (addressField student level) && jsTruthy (addressField father level) &&
    addressField student level == addressField father level

/-- C5 counterexample data: the father of a slot whose common address level is
`"wereda"` with value `"W1"`. -/
def c5Father : StudentInfo :=
  { id := "f", region := some "R", zone := some "Z", wereda := some "W1", kebele := some "K1" }

/-- C5 counterexample data: a candidate whose wereda misses the slot value but
whose zone (one step coarser) matches the father's. -/
def c5Student : StudentInfo :=
  { id := "s", region := some "R", zone := some "Z", wereda := some "W2", kebele := some "K9" }

/-- C5 is false as stated: a one-step-coarser match above a `"wereda"`-level
slot scores 30 (`50 - 10×2`, with 2 the absolute index of `"zone"` in the
probing order), not the 40 (`50 − 10×stepsCoarser` with `stepsCoarser = 1`)
the claim predicts. -/
theorem claim_C5_counterexample :
    homogeneousModeScore "wereda" "W1" c5Father c5Student = (30, some "Matched zone: Z") ∧
      (30 : Nat) ≠ 50 - 10 * 1 := by
  exact ⟨by rfl, by decide⟩

/-- Every result of the probing loop on a list of indexed levels comes from
some member level, with the score determined by that member's absolute
index. -/
lemma probeLevels_eq_some {s f : StudentInfo} :
    ∀ (L : List (Nat × String)) (sc : Nat) (lvl sval : String),
      probeLevels s f L = some (sc, lvl, sval) →
      ∃ j, (j, lvl) ∈ L ∧ sc = 50 - j * 10 ∧ levelMatch s f lvl = true := by
  intro L
  induction L with
  | nil => intro sc lvl sval h; simp [probeLevels] at h
  | cons p rest ih =>
    intro sc lvl sval h
    obtain ⟨j, level⟩ := p
    by_cases hc : (jsTruthy (addressField s level) && jsTruthy (addressField f level)
        && addressField s level == addressField f level) = true
    · simp only [probeLevels, hc, if_true] at h
      obtain ⟨rfl, rfl, rfl⟩ : 50 - j * 10 = sc ∧ level = lvl ∧ (addressField s level).getD "" = sval := by
        injection h with h'
        exact ⟨congrArg Prod.fst h', congrArg Prod.fst (congrArg Prod.snd h'),
          congrArg Prod.snd (congrArg Prod.snd h')⟩
      exact ⟨j, List.mem_cons_self _ _, rfl, by unfold levelMatch; exact hc⟩
    · simp only [probeLevels, hc, if_false, Bool.false_eq_true] at h
      obtain ⟨j', hmem, hsc, hmatch⟩ := ih _ _ _ h
      exact ⟨j', List.mem_cons_of_mem _ hmem, hsc, hmatch⟩

/-- Membership in the indexed level tail `levelsFrom k`: the index is at least
`k`, below 4, and the level name is the one at that index. -/
lemma mem_levelsFrom {k j : Nat} {lvl : String} (h : (j, lvl) ∈ levelsFrom k) :
    k ≤ j ∧ j < 4 ∧ lvl = levels.getD j "" := by
  unfold levelsFrom at h
  rcases List.mem_map.1 h with ⟨j', hj', he⟩
  injection he with h1 h2
  subst h1
  subst h2
  refine ⟨?_, ?_, rfl⟩
  · rcases List.mem_drop_iff_getElem.1 hj' with ⟨i, hm, hget⟩
    rw [List.getElem_range] at hget
    omega
  · have := List.mem_of_mem_drop hj'
    exact List.mem_range.1 this

/-- C5 (amended): an exact match at the slot's common level scores 100; a
coarser match scores `50 − 10×j` where `j` is the *absolute* index of the
matched level in `[kebele, wereda, zone, region]` (strictly above the slot
level's index) — so one step coarser yields 40 only for a kebele-level slot,
30 for a wereda-level slot, 20 for a zone-level slot; and a candidate whose
score is 0 (no match at any level) is skipped by the candidate evaluation. -/
theorem claim_C5_amended (level value : String) (father student : StudentInfo) :
    ((jsTruthy (addressField student level) && addressField student level == some value) = true →
      (homogeneousModeScore level value father student).1 = 100) ∧
    (∀ sc am, homogeneousModeScore level value father student = (sc, am) →
      sc ≠ 100 → sc ≠ 0 →
      ∃ j, levels.indexOf level < j ∧ j < 4 ∧ sc = 50 - j * 10 ∧
        levelMatch student father (levels.getD j "") = true) ∧
    (∀ (cfg : Config) (slot : Slot), cfg.mode = "homogeneous" →
      slot.commonAddress = some (level, value) →
      (homogeneousModeScore level value slot.father student).1 = 0 →
      evalCandidate cfg slot student = none) := by
  refine ⟨?_, ?_, ?_⟩
  · intro h
    unfold homogeneousModeScore
    rw [if_pos h]
  · intro sc am hEq h100 h0
    unfold homogeneousModeScore at hEq
    by_cases hx : (jsTruthy (addressField student level)
        && addressField student level == some value) = true
    · rw [if_pos hx] at hEq
      injection hEq with hsc _
      exact absurd hsc.symm h100
    · rw [if_neg hx] at hEq
      cases hp : probeLevels student father (levelsFrom (levels.indexOf level + 1)) with
      | none =>
        rw [hp] at hEq
        injection hEq with hsc _
        exact absurd hsc.symm h0
      | some r =>
        obtain ⟨sc', lvl', sval'⟩ := r
        rw [hp] at hEq
        injection hEq with hsc ham
        subst hsc
        obtain ⟨j, hmem, hsc, hmatch⟩ := probeLevels_eq_some _ _ _ _ hp
        obtain ⟨hk, hj4, hlvl⟩ := mem_levelsFrom hmem
        exact ⟨j, by omega, hj4, hsc, by rw [← hlvl]; exact hmatch⟩
  · intro cfg slot hmode hca hzero
    have hz : ((homogeneousModeScore level value slot.father student).1 == 0) = true := by
      rw [hzero]; rfl
    simp only [evalCandidate, hmode, hca, Option.isSome_some, Option.getD_some, hz,
      beq_self_eq_true, Bool.and_true, if_true]
    split_ifs <;> rfl


/-! ## Allocator-level lemmas -/

/-- Re-consing the element at position `j` onto the `eraseIdx` of a list
permutes the list. -/
lemma perm_cons_eraseIdx {α : Type _} : ∀ (l : List α) (j : Nat) (c : α),
    l[j]? = some c → l.Perm (c :: l.eraseIdx j)
  | [], j, c, h => by simp at h
  | x :: xs, 0, c, h => by
    have hx : x = c := by simpa using h
    subst hx
    simp [List.eraseIdx]
  | x :: xs, j + 1, c, h => by
    have h' : xs[j]? = some c := by simpa using h
    have ih := perm_cons_eraseIdx xs j c h'
    have h1 : (x :: xs).Perm (x :: c :: xs.eraseIdx j) := ih.cons x
    have h2 : (x :: c :: xs.eraseIdx j).Perm (c :: x :: xs.eraseIdx j) :=
      List.Perm.swap c x (xs.eraseIdx j)
    simpa [List.eraseIdx] using h1.trans h2

/-- Any best candidate produced by the scan either is the incoming best or
sits in the scanned list at the recorded index (relative to the running
offset). -/
lemma pickBestAux_position (cfg : Config) (slot : Slot) :
    ∀ (l : List StudentInfo) (i : Nat) (b0 : Option Best) (b : Best),
      pickBestAux cfg slot l i b0 = some b →
      b0 = some b ∨ ∃ j, l[j]? = some b.candidate ∧ b.index = i + j := by
  intro l
  induction l with
  | nil =>
    intro i b0 b h
    left
    simpa [pickBestAux] using h
  | cons s rest ih =>
    intro i b0 b h
    simp only [pickBestAux] at h
    cases he : evalCandidate cfg slot s with
    | none =>
      simp only [he] at h
      rcases ih (i + 1) b0 b h with h0 | ⟨j, hj, hidx⟩
      · exact Or.inl h0
      · refine Or.inr ⟨j + 1, ?_, ?_⟩
        · simpa using hj
        · omega
    | some t =>
      obtain ⟨total, am⟩ := t
      simp only [he] at h
      by_cases hlt : bestScoreOf b0 < total
      · rw [if_pos hlt] at h
        rcases ih (i + 1) _ b h with h0 | ⟨j, hj, hidx⟩
        · injection h0 with h0
          subst h0
          refine Or.inr ⟨0, ?_, ?_⟩
          · simp
          · simp
        · refine Or.inr ⟨j + 1, ?_, ?_⟩
          · simpa using hj
          · omega
      · rw [if_neg hlt] at h
        rcases ih (i + 1) b0 b h with h0 | ⟨j, hj, hidx⟩
        · exact Or.inl h0
        · refine Or.inr ⟨j + 1, ?_, ?_⟩
          · simpa using hj
          · omega

/-- The scan only ever replaces the running best by a strictly larger score,
starting from the sentinel `-1`: every produced best scores above `-1`
whenever the incoming one does (or is absent). -/
lemma pickBestAux_score_bound (cfg : Config) (slot : Slot) :
    ∀ (l : List StudentInfo) (i : Nat) (b0 : Option Best) (b : Best),
      (∀ b', b0 = some b' → (-20 : Int) < b'.score) →
      pickBestAux cfg slot l i b0 = some b → (-20 : Int) < b.score := by
  intro l
  induction l with
  | nil =>
    intro i b0 b hinv h
    have hb : b0 = some b := by simpa [pickBestAux] using h
    exact hinv b hb
  | cons s rest ih =>
    intro i b0 b hinv h
    simp only [pickBestAux] at h
    cases he : evalCandidate cfg slot s with
    | none =>
      simp only [he] at h
      exact ih (i + 1) b0 b hinv h
    | some t =>
      obtain ⟨total, am⟩ := t
      simp only [he] at h
      by_cases hlt : bestScoreOf b0 < total
      · rw [if_pos hlt] at h
        refine ih (i + 1) _ b ?_ h
        intro b' hb'
        injection hb' with hb'
        subst hb'
        cases hb0 : b0 with
        | none => rw [hb0] at hlt; exact hlt
        | some bb => rw [hb0] at hlt; exact lt_trans (hinv bb hb0) hlt
      · rw [if_neg hlt] at h
        exact ih (i + 1) b0 b hinv h

/-- Specialization of `pickBestAux_position` to the initial call. -/
lemma pickBest_position (cfg : Config) (slot : Slot) (pool : List StudentInfo) (b : Best)
    (h : pickBest cfg slot pool = some b) :
    pool[b.index]? = some b.candidate := by
  rcases pickBestAux_position cfg slot pool 0 none b h with h0 | ⟨j, hj, hidx⟩
  · exact Option.noConfusion h0
  · rw [hidx]; simpa using hj

/-- Specialization of `pickBestAux_score_bound` to the initial call. -/
lemma pickBest_score_bound (cfg : Config) (slot : Slot) (pool : List StudentInfo) (b : Best)
    (h : pickBest cfg slot pool = some b) : (-20 : Int) < b.score :=
  pickBestAux_score_bound cfg slot pool 0 none b (fun _ h' => Option.noConfusion h') h

/-- `contains = false` gives non-membership. -/
lemma not_mem_of_contains_eq_false {l : List String} {x : String}
    (h : l.contains x = false) : x ∉ l := by
  intro hx
  have ht : l.elem x = true := List.elem_iff.2 hx
  rw [show l.contains x = l.elem x from rfl, ht] at h
  cases h

/-- A subpermutation of a duplicate-free list is duplicate-free. -/
lemma subperm_nodup {l₁ l₂ : List String} (h : l₁.Subperm l₂) (h₂ : l₂.Nodup) :
    l₁.Nodup := by
  obtain ⟨u, hu, hs⟩ := h
  exact (hu.nodup_iff).1 (List.Nodup.sublist hs h₂)

/-- Facts about every assignment a slot's while loop produces: the slot
identity fields, the student's membership in the slot's pool, the id
projection, and the `-1` lower bound on a recorded diversity score. -/
lemma runSlot_mem (cfg : Config) :
    ∀ (fuel : Nat) (slot : Slot) (pool : List StudentInfo) (cnt : Nat) (a : Assignment),
      a ∈ (runSlot cfg slot fuel pool cnt).1 →
      a.familyId = slot.familyId ∧ a.gpIndex = slot.gpIndex ∧
        a.familyIndex = slot.familyIndex ∧ a.studentId = a.student.id ∧
        a.student ∈ pool ∧ (∀ q, a.diversityScore = some q → (-20 : Int) < q) := by
  intro fuel
  induction fuel with
  | zero =>
    intro slot pool cnt a h
    simp [runSlot] at h
  | succ n ih =>
    intro slot pool cnt a h
    cases pool with
    | nil => simp [runSlot] at h
    | cons s ps =>
      cases hp : pickBest cfg slot (s :: ps) with
      | none => simp [runSlot, hp] at h
      | some best =>
        simp only [runSlot, hp] at h
        rcases List.mem_cons.1 h with rfl | htail
        · refine ⟨rfl, rfl, rfl, rfl, ?_, ?_⟩
          · exact List.getElem?_mem (pickBest_position cfg slot _ best hp)
          · intro q hq
            rcases Bool.eq_false_or_eq_true (cfg.mode == "homogeneous") with hm | hm
            · have hds : (mkAssignment cfg slot cnt best).diversityScore = none := by
                simp [mkAssignment, hm]
              rw [hds] at hq
              cases hq
            · have hds : (mkAssignment cfg slot cnt best).diversityScore = some best.score := by
                simp [mkAssignment, hm]
              rw [hds] at hq
              injection hq with hq
              subst hq
              exact pickBest_score_bound cfg slot _ best hp
        · have ht := ih (advanceSlot slot best) ((s :: ps).eraseIdx best.index) (cnt + 1) a htail
          exact ⟨ht.1, ht.2.1, ht.2.2.1, ht.2.2.2.1,
            List.Sublist.subset (List.eraseIdx_sublist _ _) ht.2.2.2.2.1, ht.2.2.2.2.2⟩

/-- The ids assigned by one slot's loop form a subpermutation of the pool's
ids (each assignment consumes a distinct pool position). -/
lemma runSlot_ids_subperm (cfg : Config) :
    ∀ (fuel : Nat) (slot : Slot) (pool : List StudentInfo) (cnt : Nat),
      ((runSlot cfg slot fuel pool cnt).1.map (fun a => a.studentId)).Subperm
        (pool.map (fun s => s.id)) := by
  intro fuel
  induction fuel with
  | zero => intro slot pool cnt; simp [runSlot]
  | succ n ih =>
    intro slot pool cnt
    cases pool with
    | nil => simp [runSlot]
    | cons s ps =>
      cases hp : pickBest cfg slot (s :: ps) with
      | none => simp [runSlot, hp]
      | some best =>
        simp only [runSlot, hp, List.map_cons]
        rw [show (mkAssignment cfg slot cnt best).studentId = best.candidate.id from rfl]
        have hperm : (s :: ps).Perm (best.candidate :: (s :: ps).eraseIdx best.index) :=
          perm_cons_eraseIdx _ _ _ (pickBest_position cfg slot _ best hp)
        have hpm : ((s :: ps).map (fun st => st.id)).Perm
            (best.candidate.id :: ((s :: ps).eraseIdx best.index).map (fun st => st.id)) := by
          simpa using hperm.map (fun st => st.id)
        obtain ⟨u, hu, hsub⟩ := ih (advanceSlot slot best) ((s :: ps).eraseIdx best.index) (cnt + 1)
        exact List.Subperm.trans ⟨best.candidate.id :: u, hu.cons _, hsub.cons₂ _⟩
          hpm.symm.subperm

/-- One slot's loop produces at most `fuel` assignments. -/
lemma runSlot_length (cfg : Config) :
    ∀ (fuel : Nat) (slot : Slot) (pool : List StudentInfo) (cnt : Nat),
      (runSlot cfg slot fuel pool cnt).1.length ≤ fuel := by
  intro fuel
  induction fuel with
  | zero => intro slot pool cnt; simp [runSlot]
  | succ n ih =>
    intro slot pool cnt
    cases pool with
    | nil => simp [runSlot]
    | cons s ps =>
      cases hp : pickBest cfg slot (s :: ps) with
      | none => simp [runSlot, hp]
      | some best =>
        simp only [runSlot, hp, List.length_cons]
        exact Nat.succ_le_succ (ih _ _ _)

/-- Facts about every assignment of the main loop: it targets one of the
processed slots (of nonzero capacity), its student comes from the batch list,
its id is the student's id, that id was not yet claimed, and any recorded
diversity score exceeds `-1`. -/
lemma runAllSlots_mem (cfg : Config) (students : List StudentInfo) :
    ∀ (slots : List Slot) (claimed : List String) (a : Assignment),
      a ∈ (runAllSlots cfg students slots claimed).1 →
      (∃ slot ∈ slots, a.familyId = slot.familyId ∧ a.gpIndex = slot.gpIndex ∧
        a.familyIndex = slot.familyIndex ∧ slot.capacity ≠ 0) ∧
      (∃ s ∈ students, a.student = s) ∧ a.studentId = a.student.id ∧
      a.studentId ∉ claimed ∧ (∀ q, a.diversityScore = some q → (-20 : Int) < q) := by
  intro slots
  induction slots with
  | nil => intro claimed a h; simp [runAllSlots] at h
  | cons slot rest ih =>
    intro claimed a h
    rcases Bool.eq_false_or_eq_true (slot.capacity == 0) with hc | hc
    · simp only [runAllSlots, hc, if_true] at h
      obtain ⟨⟨sl, hsl, hkey⟩, hrest⟩ := ih claimed a h
      exact ⟨⟨sl, List.mem_cons_of_mem _ hsl, hkey⟩, hrest⟩
    · simp only [runAllSlots, hc, Bool.false_eq_true, if_false, List.mem_append] at h
      rcases h with h1 | h2
      · obtain ⟨hf, hg, hfi, hsid, hmem, hq⟩ := runSlot_mem cfg slot.capacity slot _ 0 a h1
        obtain ⟨hstu, hcond⟩ := List.mem_filter.1 hmem
        rw [Bool.and_eq_true] at hcond
        obtain ⟨hd, hcl⟩ := hcond
        have hncl : claimed.contains a.student.id = false := by
          rcases Bool.eq_false_or_eq_true (claimed.contains a.student.id) with h' | h'
          · rw [h'] at hcl; cases hcl
          · exact h'
        refine ⟨⟨slot, List.mem_cons_self _ _, hf, hg, hfi, ?_⟩,
          ⟨a.student, hstu, rfl⟩, hsid, ?_, hq⟩
        · intro h0
          rw [h0] at hc
          simp at hc
        · rw [hsid]
          exact not_mem_of_contains_eq_false hncl
      · obtain ⟨⟨sl, hsl, hkey⟩, hstu, hsid, hncl, hq⟩ := ih _ a h2
        refine ⟨⟨sl, List.mem_cons_of_mem _ hsl, hkey⟩, hstu, hsid, ?_, hq⟩
        intro hx
        exact hncl (List.mem_append.2 (Or.inl hx))

/-- The assigned student ids of a whole run are duplicate-free whenever the
student collection's ids are. -/
lemma runAllSlots_nodup (cfg : Config) (students : List StudentInfo)
    (hstu : (students.map (fun s => s.id)).Nodup) :
    ∀ (slots : List Slot) (claimed : List String),
      ((runAllSlots cfg students slots claimed).1.map (fun a => a.studentId)).Nodup := by
  intro slots
  induction slots with
  | nil => intro claimed; simp [runAllSlots]
  | cons slot rest ih =>
    intro claimed
    rcases Bool.eq_false_or_eq_true (slot.capacity == 0) with hc | hc
    · simp only [runAllSlots, hc, if_true]
      exact ih _
    · simp only [runAllSlots, hc, Bool.false_eq_true, if_false, List.map_append]
      rw [List.nodup_append]
      refine ⟨?_, ih _, ?_⟩
      · refine subperm_nodup (runSlot_ids_subperm cfg slot.capacity slot _ 0) ?_
        exact List.Nodup.sublist (List.Sublist.map _ (List.filter_sublist _)) hstu
      · intro x hx1 hx2
        rcases List.mem_map.1 hx2 with ⟨a, ha, rfl⟩
        have hn := (runAllSlots_mem cfg students rest _ a ha).2.2.2.1
        exact hn (List.mem_append.2 (Or.inr hx1))

/-- A successful preview response is exactly `previewResult`. -/
lemma autoAssign_ok {db : DB} {req : AutoAssignReq} {y : Int} {out : PreviewOut}
    (h : autoAssignChildren db req y = Except.ok out) : out = previewResult db req y := by
  unfold autoAssignChildren at h
  split_ifs at h
  all_goals first
  | exact Except.noConfusion h
  | (injection h with h2; exact h2.symm)

/-- The assignments of `previewResult`, unfolded. -/
lemma previewResult_assignments (db : DB) (req : AutoAssignReq) (y : Int) :
    (previewResult db req y).assignments =
      (runAllSlots (cfgOf req y) (studentsInBatch db (targetBatchOf req))
        (processedSlots db req) []).1 := rfl

/-- C1: no student identifier appears in more than one Assignment of a
successful preview run (over a student collection with pairwise distinct
ids): the list of assigned student ids is duplicate-free, because a student
claimed by any slot is excluded from every later slot's candidate pool and
removed from the current slot's pool. -/
theorem claim_C1_no_duplicate_student (db : DB) (req : AutoAssignReq) (y : Int)
    (out : PreviewOut) (hstu : (db.students.map (fun s => s.id)).Nodup)
    (h : autoAssignChildren db req y = Except.ok out) :
    (out.assignments.map (fun a => a.studentId)).Nodup := by
  rw [autoAssign_ok h, previewResult_assignments]
  exact runAllSlots_nodup _ _
    (List.Nodup.sublist (List.Sublist.map _ (List.filter_sublist _)) hstu) _ _

/-- Shared counterexample data (heterogeneous run): the father of the only
parent pair. -/
def hetFather : StudentInfo :=
  { id := "f1", gender := "male", batch := "B2",
    region := some "R", zone := some "Z", wereda := some "W", kebele := some "K" }

/-- Shared counterexample data: the mother. -/
def hetMother : StudentInfo :=
  { id := "m1", gender := "female", batch := "B2",
    region := some "R", zone := some "Z", wereda := some "W", kebele := some "K" }

/-- Shared counterexample data: the only candidate — same region/zone/wereda
as both parents, different kebele (diversity score 1), born 1985 (age 41 in
2026, so the age tie-breaker is −1.1). -/
def hetStudent : StudentInfo :=
  { id := "s1", gender := "male", batch := "B2",
    region := some "R", zone := some "Z", wereda := some "W", kebele := some "K2",
    birthYear := some 1985 }

/-- Shared counterexample data: a current family of batch `"B1"` that does not
allow other batches, whose single parent pair is from batch `"B2"`. -/
def hetFamily : FamilyDoc :=
  { id := "F1", title := "Fam One", batch := "B1",
    allowOtherBatches := false, familyLeader := "L1", familyCoLeader := "L2",
    familySecretary := "L3",
    grandParents := [{ families := [{ father := "f1", mother := "m1", children := [] }] }] }

/-- Shared counterexample database. -/
def hetDb : DB := { families := [hetFamily], students := [hetFather, hetMother, hetStudent] }

/-- Shared counterexample request: heterogeneous mode, target batch `"B2"`. -/
def hetReq : AutoAssignReq := { mode := some "heterogeneous", targetBatch := some "B2" }

/-- C3 is false as stated: this heterogeneous preview run assigns student
`"s1"` with recorded `diversityScore = −1/10 ≤ 0` — the value `-2` in the ×20
representation — coming from diversity mode score 1 plus the age tie-breaker
`(30 − 41) × 0.1 = −1.1`. -/
theorem claim_C3_counterexample :
    (autoAssignChildren hetDb hetReq 2026).toOption.map
        (fun out => out.assignments.map (fun a => (a.studentId, a.diversityScore))) =
      some [("s1", some (-2 : Int))] ∧
    ¬ ((0 : Int) < -2) := by
  constructor
  · decide
  · decide

/-- C3 (amended): in a successful run, candidates whose diversity mode score
is 0 are indeed skipped, but the `diversityScore` recorded on an Assignment is
the *total* score (mode score plus tie-break addends); the only guaranteed
lower bound is the selection sentinel: every recorded diversity score is
strictly greater than −1 — `-20` in the ×20 representation — and can be
≤ 0. -/
theorem claim_C3_amended (db : DB) (req : AutoAssignReq) (y : Int) (out : PreviewOut)
    (a : Assignment) (q : Int) (h : autoAssignChildren db req y = Except.ok out)
    (ha : a ∈ out.assignments) (hq : a.diversityScore = some q) : (-20 : Int) < q := by
  rw [autoAssign_ok h, previewResult_assignments] at ha
  exact (runAllSlots_mem _ _ _ _ a ha).2.2.2.2 q hq

/-- C6 is false as stated: in this run the target slot's family has
`allowOtherBatches = false` and batch `"B1"`, yet the assigned student's batch
is the run's target batch `"B2"`, not the family document's batch field. -/
theorem claim_C6_counterexample :
    (autoAssignChildren hetDb hetReq 2026).toOption.map
        (fun out => out.assignments.map (fun a => (a.familyId, a.student.batch))) =
      some [("F1", "B2")] ∧
    hetFamily.allowOtherBatches = false ∧ hetFamily.batch = "B1" ∧
    targetBatchOf hetReq = "B2" ∧ ("B2" : String) ≠ "B1" := by
  refine ⟨by decide, rfl, rfl, rfl, by decide⟩

/-- C6 (amended): every assigned student of a successful run is drawn from the
target-batch query, so its batch equals the run's `targetBatch` — in
particular for slots with `allowOtherBatches = false`; it need not equal the
family document's own `batch` field, which the algorithm never consults. -/
theorem claim_C6_amended (db : DB) (req : AutoAssignReq) (y : Int) (out : PreviewOut)
    (a : Assignment) (h : autoAssignChildren db req y = Except.ok out)
    (ha : a ∈ out.assignments) : a.student.batch = targetBatchOf req := by
  rw [autoAssign_ok h, previewResult_assignments] at ha
  obtain ⟨_, ⟨s, hs, hsa⟩, _⟩ := runAllSlots_mem _ _ _ _ a ha
  obtain ⟨_, hcond⟩ := List.mem_filter.1 hs
  rw [Bool.and_eq_true] at hcond
  obtain ⟨hb, _⟩ := hcond
  rw [hsa]
  exact beq_iff_eq.1 hb

/-! ## Capacity (C7) and processing order (C8) -/

/-- The identifying key of a slot: (family id, grandparent index, parent-pair
index). -/
def slotKey (s : Slot) : String × Nat × Nat := (s.familyId, s.gpIndex, s.familyIndex)

/-- The slot key targeted by an assignment. -/
def assignKey (a : Assignment) : String × Nat × Nat := (a.familyId, a.gpIndex, a.familyIndex)

/-- The number of assignments of a list targeting the given slot key. -/
def countFor (l : List Assignment) (k : String × Nat × Nat) : Nat :=
  (l.filter (fun a => assignKey a == k)).length

lemma countFor_append (l₁ l₂ : List Assignment) (k : String × Nat × Nat) :
    countFor (l₁ ++ l₂) k = countFor l₁ k + countFor l₂ k := by
  simp [countFor, List.filter_append]

lemma countFor_le_length (l : List Assignment) (k : String × Nat × Nat) :
    countFor l k ≤ l.length :=
  List.length_filter_le _ _

lemma countFor_eq_zero {l : List Assignment} {k : String × Nat × Nat}
    (h : ∀ a ∈ l, assignKey a ≠ k) : countFor l k = 0 := by
  rw [countFor, List.length_eq_zero, List.filter_eq_nil_iff]
  intro a ha hk
  exact h a ha (beq_iff_eq.1 hk)

/-- Every slot built from one grandparent group's parent-pair walk carries the
family's id, the group's index, and a pair index at least the running
counter. -/
lemma buildSlotsFam_mem (db : DB) (tb : String) (mc : Int) (fam : FamilyDoc)
    (docSet : List String) (gpIndex : Nat) :
    ∀ (l : List ParentPairDoc) (start : Nat) (s : Slot),
      s ∈ buildSlotsFam db tb mc fam docSet gpIndex start l →
      s.familyId = fam.id ∧ s.gpIndex = gpIndex ∧ start ≤ s.familyIndex := by
  intro l
  induction l with
  | nil => intro start s h; simp [buildSlotsFam] at h
  | cons fm rest ih =>
    intro start s h
    have hnext : ∀ s', s' ∈ buildSlotsFam db tb mc fam docSet gpIndex (start + 1) rest →
        s'.familyId = fam.id ∧ s'.gpIndex = gpIndex ∧ start ≤ s'.familyIndex := by
      intro s' h'
      obtain ⟨h1, h2, h3⟩ := ih (start + 1) s' h'
      exact ⟨h1, h2, by omega⟩
    cases hf : resolveStudent db fm.father with
    | none =>
      simp only [buildSlotsFam, hf] at h
      exact hnext s h
    | some father =>
      cases hm : resolveStudent db fm.mother with
      | none =>
        simp only [buildSlotsFam, hf, hm] at h
        exact hnext s h
      | some mother =>
        simp only [buildSlotsFam, hf, hm] at h
        by_cases hskip : (!fam.allowOtherBatches
            && !(father.batch == tb && mother.batch == tb)) = true
        · rw [if_pos hskip] at h
          exact hnext s h
        · rw [if_neg hskip] at h
          rcases List.mem_cons.1 h with rfl | htail
          · exact ⟨rfl, rfl, le_refl _⟩
          · exact hnext s htail

/-- The keys of the slots built from one grandparent group are pairwise
distinct (the pair index strictly increases along the walk). -/
lemma buildSlotsFam_keys_nodup (db : DB) (tb : String) (mc : Int) (fam : FamilyDoc)
    (docSet : List String) (gpIndex : Nat) :
    ∀ (l : List ParentPairDoc) (start : Nat),
      ((buildSlotsFam db tb mc fam docSet gpIndex start l).map slotKey).Nodup := by
  intro l
  induction l with
  | nil => intro start; simp [buildSlotsFam]
  | cons fm rest ih =>
    intro start
    cases hf : resolveStudent db fm.father with
    | none => simp only [buildSlotsFam, hf]; exact ih (start + 1)
    | some father =>
      cases hm : resolveStudent db fm.mother with
      | none => simp only [buildSlotsFam, hf, hm]; exact ih (start + 1)
      | some mother =>
        simp only [buildSlotsFam, hf, hm]
        by_cases hskip : (!fam.allowOtherBatches
            && !(father.batch == tb && mother.batch == tb)) = true
        · rw [if_pos hskip]; exact ih (start + 1)
        · rw [if_neg hskip]
          rw [List.map_cons, List.nodup_cons]
          refine ⟨?_, ih (start + 1)⟩
          intro hmem
          rcases List.mem_map.1 hmem with ⟨s', hs', hkey⟩
          obtain ⟨_, _, h3⟩ := buildSlotsFam_mem db tb mc fam docSet gpIndex rest (start + 1) s' hs'
          have : s'.familyIndex = start := by
            have := congrArg (fun p => p.2.2) hkey
            simpa [slotKey] using this
          omega

/-- Every slot built from a family carries the family's id and a group index
at least the running counter. -/
lemma buildSlotsGp_mem (db : DB) (tb : String) (mc : Int) (fam : FamilyDoc)
    (docSet : List String) :
    ∀ (l : List GrandParentDoc) (g : Nat) (s : Slot),
      s ∈ buildSlotsGp db tb mc fam docSet g l →
      s.familyId = fam.id ∧ g ≤ s.gpIndex := by
  intro l
  induction l with
  | nil => intro g s h; simp [buildSlotsGp] at h
  | cons gp rest ih =>
    intro g s h
    simp only [buildSlotsGp, List.mem_append] at h
    rcases h with h1 | h2
    · obtain ⟨ha, hb, _⟩ := buildSlotsFam_mem db tb mc fam docSet g gp.families 0 s h1
      exact ⟨ha, by omega⟩
    · obtain ⟨ha, hb⟩ := ih (g + 1) s h2
      exact ⟨ha, by omega⟩

/-- The slot keys built from one family are pairwise distinct. -/
lemma buildSlotsGp_keys_nodup (db : DB) (tb : String) (mc : Int) (fam : FamilyDoc)
    (docSet : List String) :
    ∀ (l : List GrandParentDoc) (g : Nat),
      ((buildSlotsGp db tb mc fam docSet g l).map slotKey).Nodup := by
  intro l
  induction l with
  | nil => intro g; simp [buildSlotsGp]
  | cons gp rest ih =>
    intro g
    simp only [buildSlotsGp, List.map_append]
    rw [List.nodup_append]
    refine ⟨buildSlotsFam_keys_nodup db tb mc fam docSet g gp.families 0, ih (g + 1), ?_⟩
    intro k hk1 hk2
    rcases List.mem_map.1 hk1 with ⟨s1, hs1, hkey1⟩
    rcases List.mem_map.1 hk2 with ⟨s2, hs2, hkey2⟩
    obtain ⟨_, hg1, _⟩ := buildSlotsFam_mem db tb mc fam docSet g gp.families 0 s1 hs1
    obtain ⟨_, hg2⟩ := buildSlotsGp_mem db tb mc fam docSet rest (g + 1) s2 hs2
    have e1 : s1.gpIndex = k.2.1 := by
      have := congrArg (fun p => p.2.1) hkey1
      simpa [slotKey] using this
    have e2 : s2.gpIndex = k.2.1 := by
      have := congrArg (fun p => p.2.1) hkey2
      simpa [slotKey] using this
    omega

/-- Every slot of `buildSlots` carries its family's id. -/
lemma buildSlots_familyId (db : DB) (tb : String) (mc : Int) (fam : FamilyDoc)
    (s : Slot) (h : s ∈ buildSlots db tb mc fam) : s.familyId = fam.id :=
  (buildSlotsGp_mem db tb mc fam _ fam.grandParents 0 s h).1

/-- The slot keys of `allSlots` are pairwise distinct when the family ids
are. -/
lemma allSlots_keys_nodup (db : DB) (tb : String) (mc : Int)
    (hfam : (db.families.map (fun f => f.id)).Nodup) :
    ((allSlots db tb mc).map slotKey).Nodup := by
  have helig : ((eligibleFamilies db).map (fun f => f.id)).Nodup :=
    List.Nodup.sublist (List.Sublist.map _ (List.filter_sublist _)) hfam
  have hpair : (eligibleFamilies db).Pairwise (fun a b => a.id ≠ b.id) :=
    List.pairwise_map.1 helig
  rw [allSlots, List.map_flatMap]
  rw [List.nodup_flatMap]
  constructor
  · intro f _
    exact buildSlotsGp_keys_nodup db tb mc f _ f.grandParents 0
  · refine hpair.imp ?_
    intro a b hne k hk1 hk2
    rcases List.mem_map.1 hk1 with ⟨s1, hs1, hkey1⟩
    rcases List.mem_map.1 hk2 with ⟨s2, hs2, hkey2⟩
    have e1 : s1.familyId = k.1 := by
      have := congrArg (fun p => p.1) hkey1
      simpa [slotKey] using this
    have e2 : s2.familyId = k.1 := by
      have := congrArg (fun p => p.1) hkey2
      simpa [slotKey] using this
    exact hne (by rw [← buildSlots_familyId db tb mc a s1 hs1,
      ← buildSlots_familyId db tb mc b s2 hs2, e1, e2])

/-- `eligibleSlots` is a sublist of `allSlots`. -/
lemma eligibleSlots_sublist (db : DB) (m tb : String) (mc : Int) :
    (eligibleSlots db m tb mc).Sublist (allSlots db tb mc) := by
  unfold eligibleSlots
  split_ifs
  · exact (List.filter_sublist _).trans (List.filter_sublist _)
  · exact List.filter_sublist _

/-- The keys of the processed (sorted, filtered) slot list are pairwise
distinct when the family ids are. -/
lemma processedSlots_keys_nodup (db : DB) (req : AutoAssignReq)
    (hfam : (db.families.map (fun f => f.id)).Nodup) :
    ((processedSlots db req).map slotKey).Nodup := by
  have h1 : ((eligibleSlots db (modeOf req) (targetBatchOf req)
      req.maxChildrenPerFamily).map slotKey).Nodup :=
    List.Nodup.sublist
      (List.Sublist.map _ (eligibleSlots_sublist db _ _ _))
      (allSlots_keys_nodup db _ _ hfam)
  have hperm : (processedSlots db req).Perm
      (eligibleSlots db (modeOf req) (targetBatchOf req) req.maxChildrenPerFamily) :=
    List.perm_insertionSort _ _
  exact ((hperm.map slotKey).nodup_iff).2 h1

/-- Every assignment of one slot's loop targets that slot's key. -/
lemma runSlot_key (cfg : Config) (fuel : Nat) (slot : Slot) (pool : List StudentInfo)
    (cnt : Nat) (a : Assignment) (h : a ∈ (runSlot cfg slot fuel pool cnt).1) :
    assignKey a = slotKey slot := by
  obtain ⟨h1, h2, h3, _⟩ := runSlot_mem cfg fuel slot pool cnt a h
  rw [assignKey, slotKey, h1, h2, h3]

/-- Capacity bound for the main loop: when the processed slots have pairwise
distinct keys, the number of assignments targeting each slot's key is at most
its capacity. -/
lemma runAllSlots_count (cfg : Config) (students : List StudentInfo) :
    ∀ (slots : List Slot) (claimed : List String),
      ((slots.map slotKey).Nodup) →
      ∀ s ∈ slots, countFor (runAllSlots cfg students slots claimed).1 (slotKey s) ≤ s.capacity := by
  intro slots
  induction slots with
  | nil => intro claimed _ s h; simp at h
  | cons slot rest ih =>
    intro claimed hnd s hs
    rw [List.map_cons, List.nodup_cons] at hnd
    obtain ⟨hhead, hrest⟩ := hnd
    rcases Bool.eq_false_or_eq_true (slot.capacity == 0) with hc | hc
    · simp only [runAllSlots, hc, if_true]
      rcases List.mem_cons.1 hs with rfl | hsr
      · have hz : s.capacity = 0 := beq_iff_eq.1 hc
        rw [hz]
        have : countFor (runAllSlots cfg students rest claimed).1 (slotKey s) = 0 := by
          apply countFor_eq_zero
          intro a ha hk
          obtain ⟨⟨sl, hsl, hf1, hf2, hf3, _⟩, _⟩ := runAllSlots_mem cfg students rest claimed a ha
          apply hhead
          rw [← hk, assignKey, hf1, hf2, hf3]
          exact List.mem_map.2 ⟨sl, hsl, rfl⟩
        omega
      · exact ih claimed hrest s hsr
    · simp only [runAllSlots, hc, Bool.false_eq_true, if_false]
      rw [countFor_append]
      rcases List.mem_cons.1 hs with rfl | hsr
      · have h1 : ∀ pool, countFor (runSlot cfg s s.capacity pool 0).1 (slotKey s) ≤ s.capacity :=
          fun pool => le_trans (countFor_le_length _ _) (runSlot_length cfg s.capacity s pool 0)
        have h2 : ∀ claimed', countFor (runAllSlots cfg students rest claimed').1 (slotKey s) = 0 := by
          intro claimed'
          apply countFor_eq_zero
          intro a ha hk
          obtain ⟨⟨sl, hsl, hf1, hf2, hf3, _⟩, _⟩ :=
            runAllSlots_mem cfg students rest claimed' a ha
          apply hhead
          rw [← hk, assignKey, hf1, hf2, hf3]
          exact List.mem_map.2 ⟨sl, hsl, rfl⟩
        rw [h2]
        simpa using h1 _
      · have h1 : ∀ pool, countFor (runSlot cfg slot slot.capacity pool 0).1 (slotKey s) = 0 := by
          intro pool
          apply countFor_eq_zero
          intro a ha hk
          apply hhead
          rw [← runSlot_key cfg slot.capacity slot pool 0 a ha, hk]
          exact List.mem_map.2 ⟨s, hsr, rfl⟩
        have h2 : ∀ claimed',
            countFor (runAllSlots cfg students rest claimed').1 (slotKey s) ≤ s.capacity :=
          fun claimed' => ih claimed' hrest s hsr
        rw [h1]
        simpa using h2 _

/-- C7: in a successful preview run (with pairwise distinct family ids), the
number of assignments targeting each processed slot is at most that slot's
capacity computed at preview time, and a slot whose computed capacity is 0
receives no assignments at all. -/
theorem claim_C7_capacity (db : DB) (req : AutoAssignReq) (y : Int) (out : PreviewOut)
    (hfam : (db.families.map (fun f => f.id)).Nodup)
    (h : autoAssignChildren db req y = Except.ok out) :
    (∀ s ∈ processedSlots db req, countFor out.assignments (slotKey s) ≤ s.capacity) ∧
    (∀ s ∈ allSlots db (targetBatchOf req) req.maxChildrenPerFamily,
      s.capacity = 0 → countFor out.assignments (slotKey s) = 0) := by
  rw [autoAssign_ok h, previewResult_assignments]
  constructor
  · exact runAllSlots_count _ _ _ _ (processedSlots_keys_nodup db req hfam)
  · intro s hs hz
    apply countFor_eq_zero
    intro a ha hk
    obtain ⟨⟨sl, hsl, hf1, hf2, hf3, hcap⟩, _⟩ :=
      runAllSlots_mem _ _ (processedSlots db req) [] a ha
    have hslAll : sl ∈ allSlots db (targetBatchOf req) req.maxChildrenPerFamily := by
      have hmemElig : sl ∈ eligibleSlots db (modeOf req) (targetBatchOf req)
          req.maxChildrenPerFamily :=
        (List.perm_insertionSort _ _).mem_iff.1 hsl
      exact (eligibleSlots_sublist db _ _ _).subset hmemElig
    have hkeys := allSlots_keys_nodup db (targetBatchOf req) req.maxChildrenPerFamily hfam
    have hke : slotKey sl = slotKey s := by
      rw [← hk, assignKey, hf1, hf2, hf3]
      rfl
    have : sl = s := List.inj_on_of_nodup_map hkeys hslAll hs hke
    rw [this] at hcap
    exact hcap hz

/-- C8: the slots of a run are processed in an order fixed once before
allocation begins — a permutation of the eligible slots, sorted ascending by
the children count and, on ties, descending by the gender imbalance recorded
at slot-build time — and the run's assignments are exactly the output of the
allocator consuming that fixed pre-sorted list (the order is never recomputed
as slots receive children: the sort happens before `runAllSlots` starts). -/
theorem claim_C8_processing_order (db : DB) (req : AutoAssignReq) (y : Int)
    (out : PreviewOut) (h : autoAssignChildren db req y = Except.ok out) :
    (processedSlots db req).Perm
        (eligibleSlots db (modeOf req) (targetBatchOf req) req.maxChildrenPerFamily) ∧
    (processedSlots db req).Sorted slotLE ∧
    out.assignments = (runAllSlots (cfgOf req y)
      (studentsInBatch db (targetBatchOf req)) (processedSlots db req) []).1 := by
  refine ⟨List.perm_insertionSort _ _, List.sorted_insertionSort _ _, ?_⟩
  rw [autoAssign_ok h, previewResult_assignments]

/-! ## Validation errors (C9) -/

/-- C9 counterexample data: a family passing the baseline eligibility query
whose single parent pair references students missing from the collection, so
no slot is eligible. -/
def c9Family : FamilyDoc :=
  { id := "F9", title := "Fam Nine", batch := "B",
    familyLeader := "L1", familyCoLeader := "L2", familySecretary := "L3",
    grandParents := [{ families := [{ father := "nf", mother := "nm", children := [] }] }] }

/-- C9 counterexample data: one active student in the target batch. -/
def c9Student : StudentInfo := { id := "s9", gender := "female", batch := "B" }

/-- C9 counterexample database. -/
def c9Db : DB := { families := [c9Family], students := [c9Student] }

/-- C9 counterexample request. -/
def c9Req : AutoAssignReq := { mode := some "heterogeneous", targetBatch := some "B" }

/-- C9 is false as stated: a fifth 400-class precondition failure exists
beyond the four listed — here mode and targetBatch are present and valid, the
baseline family query and the target-batch student query are both non-empty,
yet the run fails with "No families available for assignment with current
criteria" because no parent-pair slot is eligible. -/
theorem claim_C9_counterexample :
    errorOf (autoAssignChildren c9Db c9Req 2026) =
      some "No families available for assignment with current criteria" ∧
    jsTruthy c9Req.mode = true ∧ jsTruthy c9Req.targetBatch = true ∧
    modeOf c9Req = "heterogeneous" ∧
    eligibleFamilies c9Db ≠ [] ∧
    studentsInBatch c9Db (targetBatchOf c9Req) ≠ [] := by
  refine ⟨by decide, rfl, rfl, rfl, by decide, by decide⟩

/-- C9 (amended): `autoAssignChildren` fails with a 400-class error exactly in
these five precondition failures — mode or targetBatch falsy; mode not one of
the two literals; no family matching the baseline eligibility query; zero
active students in the target batch; and additionally no eligible parent-pair
slot (capacity, parent resolution, batch gate, and in homogeneous mode a
common parent address) — and otherwise returns the preview. -/
theorem claim_C9_amended (db : DB) (req : AutoAssignReq) (y : Int) :
    (∃ e, autoAssignChildren db req y = Except.error e) ↔
      (jsTruthy req.mode = false ∨ jsTruthy req.targetBatch = false ∨
        (modeOf req ≠ "homogeneous" ∧ modeOf req ≠ "heterogeneous") ∨
        eligibleFamilies db = [] ∨
        studentsInBatch db (targetBatchOf req) = [] ∨
        eligibleSlots db (modeOf req) (targetBatchOf req) req.maxChildrenPerFamily = []) := by
  unfold autoAssignChildren
  split_ifs with h1 h2 h3 h4 h5
  · simp only [Bool.or_eq_true, Bool.not_eq_true'] at h1
    exact ⟨fun _ => h1.elim Or.inl (fun hx => Or.inr (Or.inl hx)),
      fun _ => ⟨_, rfl⟩⟩
  · rw [Bool.and_eq_true] at h2
    exact ⟨fun _ => Or.inr (Or.inr (Or.inl ⟨bne_iff_ne.1 h2.1, bne_iff_ne.1 h2.2⟩)),
      fun _ => ⟨_, rfl⟩⟩
  · exact ⟨fun _ => Or.inr (Or.inr (Or.inr (Or.inl (List.isEmpty_iff.1 h3)))),
      fun _ => ⟨_, rfl⟩⟩
  · exact ⟨fun _ => Or.inr (Or.inr (Or.inr (Or.inr (Or.inl (List.isEmpty_iff.1 h4))))),
      fun _ => ⟨_, rfl⟩⟩
  · exact ⟨fun _ => Or.inr (Or.inr (Or.inr (Or.inr (Or.inr (List.isEmpty_iff.1 h5))))),
      fun _ => ⟨_, rfl⟩⟩
  · constructor
    · rintro ⟨e, he⟩
      exact he.elim
    · intro hd
      exfalso
      rcases hd with hm | htb | ⟨hh, ht⟩ | hf | hs | he
      · exact h1 (by simp [hm])
      · exact h1 (by simp [htb])
      · apply h2
        rw [Bool.and_eq_true]
        exact ⟨bne_iff_ne.2 hh, bne_iff_ne.2 ht⟩
      · exact h3 (by simp [hf])
      · exact h4 (by simp [hs])
      · exact h5 (by simp [he])

/-! ## Commit-phase lemmas (C2, C10) -/

lemma modifyNth_length (g : α → α) : ∀ (n : Nat) (l : List α),
    (modifyNth g n l).length = l.length
  | 0, [] => rfl
  | _ + 1, [] => rfl
  | 0, _ :: _ => rfl
  | n + 1, _ :: xs => by simp [modifyNth, modifyNth_length g n xs]

lemma modifyNth_getElem? (g : α → α) : ∀ (n k : Nat) (l : List α),
    (modifyNth g n l)[k]? = if k = n then (l[k]?).map g else l[k]?
  | 0, k, [] => by simp [modifyNth]
  | _ + 1, k, [] => by simp [modifyNth]
  | 0, 0, x :: xs => by simp [modifyNth]
  | 0, k + 1, x :: xs => by simp [modifyNth]
  | n + 1, 0, x :: xs => by simp [modifyNth]
  | n + 1, k + 1, x :: xs => by
    simp only [modifyNth, List.getElem?_cons_succ]
    rw [modifyNth_getElem? g n k xs]
    by_cases h : k = n
    · simp [h]
    · have hne : k + 1 ≠ n + 1 := by omega
      simp [h, hne]

lemma flatMap_modifyNth_mono {β : Type _} (g : α → α) (F : α → List β)
    (hmono : ∀ y, ∀ b ∈ F y, b ∈ F (g y)) :
    ∀ (n : Nat) (l : List α) (b : β), b ∈ l.flatMap F → b ∈ (modifyNth g n l).flatMap F
  | 0, [], _, hb => by simp at hb
  | _ + 1, [], _, hb => by simp at hb
  | 0, x :: xs, b, hb => by
    simp only [modifyNth, List.flatMap_cons, List.mem_append] at hb ⊢
    rcases hb with hb | hb
    · exact Or.inl (hmono x b hb)
    · exact Or.inr hb
  | n + 1, x :: xs, b, hb => by
    simp only [modifyNth, List.flatMap_cons, List.mem_append] at hb ⊢
    rcases hb with hb | hb
    · exact Or.inl hb
    · exact Or.inr (flatMap_modifyNth_mono g F hmono n xs b hb)

/-- Appending a child keeps every identifier of a parent-pair unit. -/
lemma pairIds_mono (c : ChildEntry) (fm : ParentPairDoc) :
    ∀ b ∈ [fm.father, fm.mother] ++ fm.children.map (fun ch => ch.student),
      b ∈ [(pushPair c fm).father, (pushPair c fm).mother] ++
        (pushPair c fm).children.map (fun ch => ch.student) := by
  intro b hb
  rcases List.mem_append.1 hb with h | h
  · exact List.mem_append.2 (Or.inl h)
  · refine List.mem_append.2 (Or.inr ?_)
    show b ∈ (fm.children ++ [c]).map (fun ch => ch.student)
    rw [List.map_append]
    exact List.mem_append.2 (Or.inl h)

/-- Appending a child keeps every identifier of a grandparent group. -/
lemma gpIds_mono (i : Nat) (c : ChildEntry) (gp : GrandParentDoc) :
    ∀ b ∈ gp.grandFather.toList ++ gp.grandMother.toList
        ++ gp.families.flatMap (fun fm =>
          [fm.father, fm.mother] ++ fm.children.map (fun ch => ch.student)),
      b ∈ (pushGp i c gp).grandFather.toList ++ (pushGp i c gp).grandMother.toList
        ++ (pushGp i c gp).families.flatMap (fun fm =>
          [fm.father, fm.mother] ++ fm.children.map (fun ch => ch.student)) := by
  intro b hb
  show b ∈ gp.grandFather.toList ++ gp.grandMother.toList
    ++ (modifyNth (pushPair c) i gp.families).flatMap (fun fm =>
      [fm.father, fm.mother] ++ fm.children.map (fun ch => ch.student))
  rcases List.mem_append.1 hb with h | h
  · exact List.mem_append.2 (Or.inl h)
  · exact List.mem_append.2 (Or.inr
      (flatMap_modifyNth_mono _ _ (pairIds_mono c) i gp.families b h))

/-- A push never removes a student identifier from a family document. -/
lemma familyStudentIds_pushDoc_mono (g i : Nat) (c : ChildEntry) (f : FamilyDoc) :
    ∀ x ∈ familyStudentIds f, x ∈ familyStudentIds (pushDoc g i c f) := by
  intro x hx
  unfold familyStudentIds at hx ⊢
  rcases List.mem_append.1 hx with hx | hx
  · exact List.mem_append.2 (Or.inl hx)
  · refine List.mem_append.2 (Or.inr ?_)
    show x ∈ (modifyNth (pushGp i c) g f.grandParents).flatMap _
    exact flatMap_modifyNth_mono _ _ (gpIds_mono i c) g f.grandParents x hx

lemma find?_updateFirst (p : α → Bool) (g : α → α) (hp : ∀ x, p (g x) = p x) :
    ∀ l : List α, (updateFirst p g l).find? p = (l.find? p).map g
  | [] => rfl
  | x :: xs => by
    by_cases hx : p x = true
    · simp [updateFirst, hx, List.find?_cons, hp x]
    · have hx' : p x = false := by
        rcases Bool.eq_false_or_eq_true (p x) with h | h
        · exact absurd h hx
        · exact h
      simp [updateFirst, hx', List.find?_cons, find?_updateFirst p g hp xs]

lemma find?_updateFirst_ne (p q : α → Bool) (g : α → α) (hq : ∀ x, q (g x) = q x)
    (hpq : ∀ x, p x = true → q x = false) :
    ∀ l : List α, (updateFirst p g l).find? q = l.find? q
  | [] => rfl
  | x :: xs => by
    by_cases hx : p x = true
    · simp [updateFirst, hx, List.find?_cons, hq x, hpq x hx]
    · have hx' : p x = false := by
        rcases Bool.eq_false_or_eq_true (p x) with h | h
        · exact absurd h hx
        · exact h
      rcases Bool.eq_false_or_eq_true (q x) with hqx | hqx
      · simp [updateFirst, hx', List.find?_cons, hqx]
      · simp [updateFirst, hx', List.find?_cons, hqx,
          find?_updateFirst_ne p q g hq hpq xs]

/-- Looking up the pushed family id after a push finds the pushed document. -/
lemma pushChild_find_same (db : List FamilyDoc) (fid0 : String) (g0 i0 : Nat)
    (c0 : ChildEntry) :
    (pushChild db fid0 g0 i0 c0).find? (fun f => f.id == fid0) =
      (db.find? (fun f => f.id == fid0)).map (pushDoc g0 i0 c0) :=
  find?_updateFirst (fun f => f.id == fid0) (pushDoc g0 i0 c0) (fun _ => rfl) db

/-- Looking up any other family id after a push is unchanged. -/
lemma pushChild_find_other (db : List FamilyDoc) (fid0 : String) (g0 i0 : Nat)
    (c0 : ChildEntry) (fid : String) (hne : fid ≠ fid0) :
    (pushChild db fid0 g0 i0 c0).find? (fun f => f.id == fid) =
      db.find? (fun f => f.id == fid) := by
  refine find?_updateFirst_ne (fun f => f.id == fid0) (fun f => f.id == fid)
    (pushDoc g0 i0 c0) (fun _ => rfl) ?_ db
  intro x hx
  have hx' : x.id = fid0 := beq_iff_eq.1 hx
  show (x.id == fid) = false
  rw [hx']
  rcases Bool.eq_false_or_eq_true (fid0 == fid) with h | h
  · exact absurd (beq_iff_eq.1 h).symm hne
  · exact h

/-- Pushes preserve family titles at every id. -/
lemma pushChild_find_title (db : List FamilyDoc) (fid0 : String) (g0 i0 : Nat)
    (c0 : ChildEntry) (fid : String) :
    ((pushChild db fid0 g0 i0 c0).find? (fun f => f.id == fid)).map (fun f => f.title) =
      (db.find? (fun f => f.id == fid)).map (fun f => f.title) := by
  by_cases heq : fid = fid0
  · subst heq
    rw [pushChild_find_same]
    cases db.find? (fun f => f.id == fid) <;> rfl
  · rw [pushChild_find_other db fid0 g0 i0 c0 fid heq]

/-- Pushes preserve the conflict witness: a student present in the document a
lookup finds stays present after any push. -/
lemma conflict_mono (db : List FamilyDoc) (fid0 : String) (g0 i0 : Nat) (c0 : ChildEntry)
    (fid : String) (f : FamilyDoc) (x : String)
    (hf : db.find? (fun y => y.id == fid) = some f) (hx : x ∈ familyStudentIds f) :
    ∃ f', (pushChild db fid0 g0 i0 c0).find? (fun y => y.id == fid) = some f' ∧
      x ∈ familyStudentIds f' ∧ f'.title = f.title := by
  by_cases heq : fid = fid0
  · subst heq
    refine ⟨pushDoc g0 i0 c0 f, ?_, familyStudentIds_pushDoc_mono g0 i0 c0 f x hx, rfl⟩
    rw [pushChild_find_same, hf]
    rfl
  · exact ⟨f, by rw [pushChild_find_other db fid0 g0 i0 c0 fid heq]; exact hf, hx, rfl⟩

/-- Whether an assignment addresses an existing family and an in-range
(grandparent, parent-pair) slot of it. -/
def slotInRange (db : List FamilyDoc) (a : AssignIn) : Bool :=
  match db.find? (fun x => x.id == a.familyId) with
  | none => false
  | some f =>
    match f.grandParents[a.gpIndex]? with
    | none => false
    | some gp => decide (a.familyIndex < gp.families.length)

/-- The child entry a commit-phase assignment stages. -/
def childEntryOf (a : AssignIn) : ChildEntry :=
  { student := a.studentId, relationship := a.relationship, birthOrder := a.birthOrder }

/-- `childrenAt` through two successful lookups. -/
lemma childrenAt_eq (db : List FamilyDoc) (fid : String) (g i : Nat)
    (f : FamilyDoc) (gp : GrandParentDoc) (fm : ParentPairDoc)
    (hf : db.find? (fun x => x.id == fid) = some f)
    (hg : f.grandParents[g]? = some gp) (hfm : gp.families[i]? = some fm) :
    childrenAt db fid g i = fm.children := by
  unfold childrenAt
  simp only [hf, hg, hfm]

lemma childrenAt_eq_nil_find (db : List FamilyDoc) (fid : String) (g i : Nat)
    (hf : db.find? (fun x => x.id == fid) = none) : childrenAt db fid g i = [] := by
  unfold childrenAt
  simp only [hf]

lemma childrenAt_eq_nil_gp (db : List FamilyDoc) (fid : String) (g i : Nat)
    (f : FamilyDoc) (hf : db.find? (fun x => x.id == fid) = some f)
    (hg : f.grandParents[g]? = none) : childrenAt db fid g i = [] := by
  unfold childrenAt
  simp only [hf, hg]

lemma childrenAt_eq_nil_fm (db : List FamilyDoc) (fid : String) (g i : Nat)
    (f : FamilyDoc) (gp : GrandParentDoc) (hf : db.find? (fun x => x.id == fid) = some f)
    (hg : f.grandParents[g]? = some gp) (hfm : gp.families[i]? = none) :
    childrenAt db fid g i = [] := by
  unfold childrenAt
  simp only [hf, hg, hfm]

/-- A push on a different family id leaves any children list unchanged. -/
lemma childrenAt_pushChild_other (db : List FamilyDoc) (fid0 : String) (g0 i0 : Nat)
    (c0 : ChildEntry) (fid : String) (g i : Nat) (hne : fid ≠ fid0) :
    childrenAt (pushChild db fid0 g0 i0 c0) fid g i = childrenAt db fid g i := by
  unfold childrenAt
  rw [pushChild_find_other db fid0 g0 i0 c0 fid hne]

/-- A push at an assignment's own (in-range) path appends exactly its child
entry. -/
lemma childrenAt_pushChild_self (db : List FamilyDoc) (a : AssignIn) (c : ChildEntry)
    (h : slotInRange db a = true) :
    childrenAt (pushChild db a.familyId a.gpIndex a.familyIndex c)
        a.familyId a.gpIndex a.familyIndex
      = childrenAt db a.familyId a.gpIndex a.familyIndex ++ [c] := by
  unfold slotInRange at h
  cases hf : db.find? (fun x => x.id == a.familyId) with
  | none => simp only [hf, Bool.false_eq_true] at h
  | some f =>
    simp only [hf] at h
    cases hg : f.grandParents[a.gpIndex]? with
    | none => simp only [hg, Bool.false_eq_true] at h
    | some gp =>
      simp only [hg] at h
      have hlt : a.familyIndex < gp.families.length := of_decide_eq_true h
      cases hfm : gp.families[a.familyIndex]? with
      | none =>
        exfalso
        rw [List.getElem?_eq_none_iff] at hfm
        omega
      | some fm =>
        have hf' : (pushChild db a.familyId a.gpIndex a.familyIndex c).find?
            (fun x => x.id == a.familyId) = some (pushDoc a.gpIndex a.familyIndex c f) := by
          rw [pushChild_find_same, hf]
          rfl
        have e1 : (pushDoc a.gpIndex a.familyIndex c f).grandParents[a.gpIndex]? =
            some (pushGp a.familyIndex c gp) := by
          show (modifyNth (pushGp a.familyIndex c) a.gpIndex f.grandParents)[a.gpIndex]? = _
          rw [modifyNth_getElem?, if_pos rfl, hg]
          rfl
        have e2 : (pushGp a.familyIndex c gp).families[a.familyIndex]? =
            some (pushPair c fm) := by
          show (modifyNth (pushPair c) a.familyIndex gp.families)[a.familyIndex]? = _
          rw [modifyNth_getElem?, if_pos rfl, hfm]
          rfl
        rw [childrenAt_eq _ _ _ _ _ _ _ hf' e1 e2,
          childrenAt_eq _ _ _ _ _ _ _ hf hg hfm]
        rfl

/-- A push anywhere never removes an entry from any children list. -/
lemma childrenAt_pushChild_mono (db : List FamilyDoc) (fid0 : String) (g0 i0 : Nat)
    (c0 : ChildEntry) (fid : String) (g i : Nat) (x : ChildEntry)
    (hx : x ∈ childrenAt db fid g i) :
    x ∈ childrenAt (pushChild db fid0 g0 i0 c0) fid g i := by
  by_cases heq : fid = fid0
  · subst heq
    cases hf : db.find? (fun y => y.id == fid) with
    | none =>
      rw [childrenAt_eq_nil_find db fid g i hf] at hx
      exact absurd hx (List.not_mem_nil x)
    | some f =>
      have hf' : (pushChild db fid g0 i0 c0).find? (fun y => y.id == fid) =
          some (pushDoc g0 i0 c0 f) := by
        rw [pushChild_find_same, hf]
        rfl
      cases hg : f.grandParents[g]? with
      | none =>
        rw [childrenAt_eq_nil_gp db fid g i f hf hg] at hx
        exact absurd hx (List.not_mem_nil x)
      | some gp =>
        cases hfm : gp.families[i]? with
        | none =>
          rw [childrenAt_eq_nil_fm db fid g i f gp hf hg hfm] at hx
          exact absurd hx (List.not_mem_nil x)
        | some fm =>
          rw [childrenAt_eq db fid g i f gp fm hf hg hfm] at hx
          by_cases hgg : g = g0
          · have egp : (pushDoc g0 i0 c0 f).grandParents[g]? = some (pushGp i0 c0 gp) := by
              show (modifyNth (pushGp i0 c0) g0 f.grandParents)[g]? = _
              rw [modifyNth_getElem?, if_pos hgg, hg]
              rfl
            by_cases hii : i = i0
            · have efm : (pushGp i0 c0 gp).families[i]? = some (pushPair c0 fm) := by
                show (modifyNth (pushPair c0) i0 gp.families)[i]? = _
                rw [modifyNth_getElem?, if_pos hii, hfm]
                rfl
              rw [childrenAt_eq _ fid g i _ _ _ hf' egp efm]
              show x ∈ fm.children ++ [c0]
              exact List.mem_append.2 (Or.inl hx)
            · have efm : (pushGp i0 c0 gp).families[i]? = some fm := by
                show (modifyNth (pushPair c0) i0 gp.families)[i]? = _
                rw [modifyNth_getElem?, if_neg hii, hfm]
              rw [childrenAt_eq _ fid g i _ _ _ hf' egp efm]
              exact hx
          · have egp : (pushDoc g0 i0 c0 f).grandParents[g]? = some gp := by
              show (modifyNth (pushGp i0 c0) g0 f.grandParents)[g]? = _
              rw [modifyNth_getElem?, if_neg hgg, hg]
            rw [childrenAt_eq _ fid g i _ _ _ hf' egp hfm]
            exact hx
  · rw [childrenAt_pushChild_other db fid0 g0 i0 c0 fid g i heq]
    exact hx

/-- Pushes preserve `slotInRange` (document structure and lengths are kept). -/
lemma slotInRange_pushChild (db : List FamilyDoc) (fid0 : String) (g0 i0 : Nat)
    (c0 : ChildEntry) (a : AssignIn) (h : slotInRange db a = true) :
    slotInRange (pushChild db fid0 g0 i0 c0) a = true := by
  by_cases heq : a.familyId = fid0
  · subst heq
    unfold slotInRange at h ⊢
    cases hf : db.find? (fun x => x.id == a.familyId) with
    | none => simp only [hf, Bool.false_eq_true] at h
    | some f =>
      simp only [hf] at h
      have hf' : (pushChild db a.familyId g0 i0 c0).find? (fun x => x.id == a.familyId) =
          some (pushDoc g0 i0 c0 f) := by
        rw [pushChild_find_same, hf]
        rfl
      simp only [hf']
      cases hg : f.grandParents[a.gpIndex]? with
      | none => simp only [hg, Bool.false_eq_true] at h
      | some gp =>
        simp only [hg] at h
        by_cases hgg : a.gpIndex = g0
        · have egp : (pushDoc g0 i0 c0 f).grandParents[a.gpIndex]? =
              some (pushGp i0 c0 gp) := by
            show (modifyNth (pushGp i0 c0) g0 f.grandParents)[a.gpIndex]? = _
            rw [modifyNth_getElem?, if_pos hgg, hg]
            rfl
          simp only [egp]
          show decide (a.familyIndex < (modifyNth (pushPair c0) i0 gp.families).length) = true
          rw [modifyNth_length]
          exact h
        · have egp : (pushDoc g0 i0 c0 f).grandParents[a.gpIndex]? = some gp := by
            show (modifyNth (pushGp i0 c0) g0 f.grandParents)[a.gpIndex]? = _
            rw [modifyNth_getElem?, if_neg hgg, hg]
          simp only [egp]
          exact h
  · unfold slotInRange at h ⊢
    rw [pushChild_find_other db fid0 g0 i0 c0 a.familyId heq]
    exact h

/-- When the whole commit loop succeeds, no staged children list ever loses an
entry on the way to the final database. -/
lemma executeGo_ok_mono :
    ∀ (as : List AssignIn) (db : List FamilyDoc) (acc : List ExecResult)
      (db' : List FamilyDoc) (res : List ExecResult),
      executeGo db as acc = Except.ok (db', res) →
      ∀ (fid : String) (g i : Nat) (x : ChildEntry),
        x ∈ childrenAt db fid g i → x ∈ childrenAt db' fid g i := by
  intro as
  induction as with
  | nil =>
    intro db acc db' res h fid g i x hx
    simp only [executeGo, Except.ok.injEq, Prod.mk.injEq] at h
    rw [← h.1]
    exact hx
  | cons a rest ih =>
    intro db acc db' res h fid g i x hx
    cases hf : db.find? (fun y => y.id == a.familyId) with
    | none =>
      simp only [executeGo, hf] at h
      exact Except.noConfusion h
    | some f =>
      rcases Bool.eq_false_or_eq_true ((familyStudentIds f).contains a.studentId) with hc | hc
      · simp only [executeGo, hf, hc, if_true] at h
        exact Except.noConfusion h
      · simp only [executeGo, hf, hc, Bool.false_eq_true, if_false] at h
        refine ih _ _ _ _ h fid g i x ?_
        exact childrenAt_pushChild_mono db a.familyId a.gpIndex a.familyIndex _ fid g i x hx

/-- When the whole commit loop succeeds, every (in-range) assignment's child
entry is present at its designated slot in the final database. -/
lemma executeGo_ok_appended :
    ∀ (as : List AssignIn) (db : List FamilyDoc) (acc : List ExecResult)
      (db' : List FamilyDoc) (res : List ExecResult),
      executeGo db as acc = Except.ok (db', res) →
      ∀ a ∈ as, slotInRange db a = true →
        childEntryOf a ∈ childrenAt db' a.familyId a.gpIndex a.familyIndex := by
  intro as
  induction as with
  | nil =>
    intro db acc db' res h a ha
    exact absurd ha (List.not_mem_nil a)
  | cons a0 rest ih =>
    intro db acc db' res h a ha hr
    cases hf : db.find? (fun y => y.id == a0.familyId) with
    | none =>
      simp only [executeGo, hf] at h
      exact Except.noConfusion h
    | some f =>
      rcases Bool.eq_false_or_eq_true ((familyStudentIds f).contains a0.studentId) with hc | hc
      · simp only [executeGo, hf, hc, if_true] at h
        exact Except.noConfusion h
      · simp only [executeGo, hf, hc, Bool.false_eq_true, if_false] at h
        rcases List.mem_cons.1 ha with rfl | harest
        · refine executeGo_ok_mono rest _ _ _ _ h a.familyId a.gpIndex a.familyIndex _ ?_
          show childEntryOf a ∈ childrenAt
            (pushChild db a.familyId a.gpIndex a.familyIndex (childEntryOf a))
            a.familyId a.gpIndex a.familyIndex
          rw [childrenAt_pushChild_self db a (childEntryOf a) hr]
          exact List.mem_append.2 (Or.inr (List.mem_cons_self _ _))
        · refine ih _ _ _ _ h a harest ?_
          exact slotInRange_pushChild db a0.familyId a0.gpIndex a0.familyIndex _ a hr

/-- Any push preserves existence of every family lookup. -/
lemma pushChild_find_isSome (db : List FamilyDoc) (fid0 : String) (g0 i0 : Nat)
    (c0 : ChildEntry) (fid : String) :
    ((pushChild db fid0 g0 i0 c0).find? (fun f => f.id == fid)).isSome =
      (db.find? (fun f => f.id == fid)).isSome := by
  have h := congrArg Option.isSome (pushChild_find_title db fid0 g0 i0 c0 fid)
  simpa using h

/-- If some assignment's student is already present in its target family, the
commit loop throws the conflict error of the first offending assignment
(whose target family and title are those of the current staged database,
with titles unchanged from the initial one). -/
lemma executeGo_conflict :
    ∀ (as : List AssignIn) (db : List FamilyDoc) (acc : List ExecResult),
      (∀ a ∈ as, ((db.find? (fun x => x.id == a.familyId)).isSome = true)) →
      (∃ a ∈ as, ∃ f, db.find? (fun x => x.id == a.familyId) = some f ∧
        a.studentId ∈ familyStudentIds f) →
      ∃ b ∈ as, ∃ fb, db.find? (fun x => x.id == b.familyId) = some fb ∧
        executeGo db as acc =
          Except.error ("Student " ++ b.studentId ++ " is already in family " ++ fb.title) := by
  intro as
  induction as with
  | nil =>
    rintro db acc _ ⟨a, ha, _⟩
    exact absurd ha (List.not_mem_nil a)
  | cons a rest ih =>
    intro db acc hex hconf
    obtain ⟨fa, hfa⟩ : ∃ fa, db.find? (fun x => x.id == a.familyId) = some fa :=
      Option.isSome_iff_exists.1 (hex a (List.mem_cons_self a rest))
    rcases Bool.eq_false_or_eq_true ((familyStudentIds fa).contains a.studentId) with hct | hct
    · refine ⟨a, List.mem_cons_self a rest, fa, hfa, ?_⟩
      simp only [executeGo, hfa, hct, if_true]
    · obtain ⟨a', ha', f', hf', hmem⟩ := hconf
      have ha'rest : a' ∈ rest := by
        rcases List.mem_cons.1 ha' with heq' | hr
        · exfalso
          subst heq'
          rw [hfa] at hf'
          injection hf' with hf2
          subst hf2
          have hcontr : (familyStudentIds fa).contains a'.studentId = true := by
            rw [show (familyStudentIds fa).contains a'.studentId
              = (familyStudentIds fa).elem a'.studentId from rfl]
            exact List.elem_iff.2 hmem
          rw [hcontr] at hct
          exact Bool.noConfusion hct
        · exact hr
      have hex' : ∀ b ∈ rest,
          (((pushChild db a.familyId a.gpIndex a.familyIndex (childEntryOf a)).find?
            (fun x => x.id == b.familyId)).isSome = true) := by
        intro b hb
        rw [pushChild_find_isSome]
        exact hex b (List.mem_cons_of_mem a hb)
      have hconf' : ∃ b ∈ rest, ∃ f,
          (pushChild db a.familyId a.gpIndex a.familyIndex (childEntryOf a)).find?
            (fun x => x.id == b.familyId) = some f ∧
          b.studentId ∈ familyStudentIds f := by
        obtain ⟨f'', hf'', hm'', _⟩ := conflict_mono db a.familyId a.gpIndex a.familyIndex
          (childEntryOf a) a'.familyId f' a'.studentId hf' hmem
        exact ⟨a', ha'rest, f'', hf'', hm''⟩
      obtain ⟨b, hb, fb, hfb, heq⟩ := ih
        (pushChild db a.familyId a.gpIndex a.familyIndex (childEntryOf a)) _ hex' hconf'
      obtain ⟨fb0, hfb0⟩ : ∃ fb0, db.find? (fun x => x.id == b.familyId) = some fb0 :=
        Option.isSome_iff_exists.1 (hex b (List.mem_cons_of_mem a hb))
      have htitle := pushChild_find_title db a.familyId a.gpIndex a.familyIndex
        (childEntryOf a) b.familyId
      rw [hfb, hfb0] at htitle
      have htt : fb.title = fb0.title := by
        injection htitle
      refine ⟨b, List.mem_cons_of_mem a hb, fb0, hfb0, ?_⟩
      have hstep : executeGo db (a :: rest) acc =
          executeGo (pushChild db a.familyId a.gpIndex a.familyIndex (childEntryOf a)) rest
            ({ familyTitle := fa.title, relationship := a.relationship,
               birthOrder := a.birthOrder } :: acc) := by
        simp only [executeGo, hfa, hct, Bool.false_eq_true, if_false]
        rfl
      rw [hstep, heq, htt]

/-- C2: commit atomicity and totality.  Over a batch whose assignments all
address existing families: (a) if any assignment's student is already present
anywhere in its target family document at commit time, the whole commit fails
with the conflict error naming an offending student and its family's title,
and the observed database is unchanged — no assignment of the batch is
persisted; (b) on success, every (in-range) assignment's child entry is
appended at its designated grandparent/parent-pair slot of the committed
database. -/
theorem claim_C2_commit_atomicity (db : List FamilyDoc) (assignments : List AssignIn)
    (hex : ∀ a ∈ assignments, ((db.find? (fun x => x.id == a.familyId)).isSome = true)) :
    ((∃ a ∈ assignments, ∃ f, db.find? (fun x => x.id == a.familyId) = some f ∧
        a.studentId ∈ familyStudentIds f) →
      (∃ b ∈ assignments, ∃ fb, db.find? (fun x => x.id == b.familyId) = some fb ∧
        executeAutoAssignChildren db assignments =
          Except.error ("Student " ++ b.studentId ++ " is already in family " ++ fb.title)) ∧
      executeFinalDb db assignments = db) ∧
    (∀ db' res, executeAutoAssignChildren db assignments = Except.ok (db', res) →
      ∀ a ∈ assignments, slotInRange db a = true →
        childEntryOf a ∈ childrenAt db' a.familyId a.gpIndex a.familyIndex) := by
  constructor
  · intro hconf
    have hie : assignments.isEmpty = false := by
      obtain ⟨a, ha, _⟩ := hconf
      cases assignments with
      | nil => exact absurd ha (List.not_mem_nil a)
      | cons x xs => rfl
    obtain ⟨b, hb, fb, hfb, herr⟩ := executeGo_conflict assignments db [] hex hconf
    have hexe : executeAutoAssignChildren db assignments =
        Except.error ("Student " ++ b.studentId ++ " is already in family " ++ fb.title) := by
      rw [executeAutoAssignChildren, hie]
      simpa using herr
    refine ⟨⟨b, hb, fb, hfb, hexe⟩, ?_⟩
    rw [executeFinalDb, hexe]
  · intro db' res hok a ha hr
    have hgo : executeGo db assignments [] = Except.ok (db', res) := by
      rcases Bool.eq_false_or_eq_true assignments.isEmpty with hie | hie
      · rw [executeAutoAssignChildren, hie] at hok
        simp at hok
      · rw [executeAutoAssignChildren, hie] at hok
        simpa using hok
    exact executeGo_ok_appended assignments db [] db' res hgo a ha hr

/-- C10: the commit-phase conflict check compares each assignment only against
its own target family document, so a batch that assigns the same student to
slots of two *different* families raises no conflict: the commit succeeds and
both child entries are persisted. -/
theorem claim_C10_cross_family_duplicate (db : List FamilyDoc) (a1 a2 : AssignIn)
    (f1 f2 : FamilyDoc)
    (h1 : db.find? (fun x => x.id == a1.familyId) = some f1)
    (h2 : db.find? (fun x => x.id == a2.familyId) = some f2)
    (hne : a2.familyId ≠ a1.familyId)
    (_hsame : a1.studentId = a2.studentId)
    (hc1 : a1.studentId ∉ familyStudentIds f1)
    (hc2 : a2.studentId ∉ familyStudentIds f2)
    (hr1 : slotInRange db a1 = true) (hr2 : slotInRange db a2 = true) :
    ∃ db' res, executeAutoAssignChildren db [a1, a2] = Except.ok (db', res) ∧
      childEntryOf a1 ∈ childrenAt db' a1.familyId a1.gpIndex a1.familyIndex ∧
      childEntryOf a2 ∈ childrenAt db' a2.familyId a2.gpIndex a2.familyIndex := by
  have hct1 : (familyStudentIds f1).contains a1.studentId = false := by
    rcases Bool.eq_false_or_eq_true ((familyStudentIds f1).contains a1.studentId) with h | h
    · exfalso
      apply hc1
      have : (familyStudentIds f1).elem a1.studentId = true := h
      exact List.elem_iff.1 this
    · exact h
  have hct2 : (familyStudentIds f2).contains a2.studentId = false := by
    rcases Bool.eq_false_or_eq_true ((familyStudentIds f2).contains a2.studentId) with h | h
    · exfalso
      apply hc2
      have : (familyStudentIds f2).elem a2.studentId = true := h
      exact List.elem_iff.1 this
    · exact h
  have hf2' : (pushChild db a1.familyId a1.gpIndex a1.familyIndex
      { student := a1.studentId, relationship := a1.relationship,
        birthOrder := a1.birthOrder }).find?
      (fun x => x.id == a2.familyId) = some f2 := by
    rw [pushChild_find_other db a1.familyId a1.gpIndex a1.familyIndex
      { student := a1.studentId, relationship := a1.relationship,
        birthOrder := a1.birthOrder } a2.familyId hne]
    exact h2
  refine ⟨pushChild (pushChild db a1.familyId a1.gpIndex a1.familyIndex (childEntryOf a1))
      a2.familyId a2.gpIndex a2.familyIndex (childEntryOf a2),
    [{ familyTitle := f1.title, relationship := a1.relationship, birthOrder := a1.birthOrder },
     { familyTitle := f2.title, relationship := a2.relationship, birthOrder := a2.birthOrder }],
    ?_, ?_, ?_⟩
  · show executeGo db [a1, a2] [] = _
    simp only [executeGo, h1, hct1, Bool.false_eq_true, if_false, hf2', hct2]
    rfl
  · refine childrenAt_pushChild_mono _ a2.familyId a2.gpIndex a2.familyIndex _
      a1.familyId a1.gpIndex a1.familyIndex _ ?_
    show childEntryOf a1 ∈ childrenAt
      (pushChild db a1.familyId a1.gpIndex a1.familyIndex (childEntryOf a1))
      a1.familyId a1.gpIndex a1.familyIndex
    rw [childrenAt_pushChild_self db a1 (childEntryOf a1) hr1]
    exact List.mem_append.2 (Or.inr (List.mem_cons_self _ _))
  · have hr2' : slotInRange
        (pushChild db a1.familyId a1.gpIndex a1.familyIndex (childEntryOf a1)) a2 = true :=
      slotInRange_pushChild db a1.familyId a1.gpIndex a1.familyIndex (childEntryOf a1) a2 hr2
    rw [childrenAt_pushChild_self _ a2 (childEntryOf a2) hr2']
    exact List.mem_append.2 (Or.inr (List.mem_cons_self _ _))

/-! ## Witnesses: the claim theorems applied at concrete inputs -/

/-- A default assignment record used only to read off list heads. -/
def defaultAssignment : Assignment :=
  { familyId := "", familyTitle := "", gpIndex := 0, familyIndex := 0,
    studentId := "", student := { id := "" }, relationship := "", birthOrder := 0 }

theorem claim_C1_witness :
    ((previewResult hetDb hetReq 2026).assignments.map (fun a => a.studentId)).Nodup :=
  claim_C1_no_duplicate_student hetDb hetReq 2026 (previewResult hetDb hetReq 2026)
    (by decide) rfl

theorem claim_C3_amended_witness :
    ((previewResult hetDb hetReq 2026).assignments.getD 0 defaultAssignment)
        ∈ (previewResult hetDb hetReq 2026).assignments ∧
    ((previewResult hetDb hetReq 2026).assignments.getD 0 defaultAssignment).diversityScore
        = some (-2) ∧
    (-20 : Int) < -2 :=
  ⟨by decide, by decide,
    claim_C3_amended hetDb hetReq 2026 (previewResult hetDb hetReq 2026)
      ((previewResult hetDb hetReq 2026).assignments.getD 0 defaultAssignment) (-2)
      rfl (by decide) (by decide)⟩

theorem claim_C4_amended_witness :
    calculateDiversityScore c4Child c4Father c4Mother =
      diversityScoreAmendedCascade c4Child c4Father c4Mother :=
  claim_C4_amended c4Child c4Father c4Mother

theorem claim_C5_amended_witness :
    homogeneousModeScore "wereda" "W1" c5Father c5Student = (30, some "Matched zone: Z") ∧
    ∃ j, levels.indexOf "wereda" < j ∧ j < 4 ∧ 30 = 50 - j * 10 ∧
      levelMatch c5Student c5Father (levels.getD j "") = true :=
  ⟨by decide,
    (claim_C5_amended "wereda" "W1" c5Father c5Student).2.1 30 (some "Matched zone: Z")
      (by decide) (by decide) (by decide)⟩

theorem claim_C6_amended_witness :
    ((previewResult hetDb hetReq 2026).assignments.getD 0 defaultAssignment).student.batch
      = targetBatchOf hetReq :=
  claim_C6_amended hetDb hetReq 2026 (previewResult hetDb hetReq 2026)
    ((previewResult hetDb hetReq 2026).assignments.getD 0 defaultAssignment)
    rfl (by decide)

theorem claim_C7_witness :
    (∀ s ∈ processedSlots hetDb hetReq,
      countFor (previewResult hetDb hetReq 2026).assignments (slotKey s) ≤ s.capacity) ∧
    (∀ s ∈ allSlots hetDb (targetBatchOf hetReq) hetReq.maxChildrenPerFamily,
      s.capacity = 0 →
        countFor (previewResult hetDb hetReq 2026).assignments (slotKey s) = 0) :=
  claim_C7_capacity hetDb hetReq 2026 (previewResult hetDb hetReq 2026) (by decide) rfl

theorem claim_C8_witness :
    (processedSlots hetDb hetReq).Perm
        (eligibleSlots hetDb (modeOf hetReq) (targetBatchOf hetReq)
          hetReq.maxChildrenPerFamily) ∧
    (processedSlots hetDb hetReq).Sorted slotLE ∧
    (previewResult hetDb hetReq 2026).assignments = (runAllSlots (cfgOf hetReq 2026)
      (studentsInBatch hetDb (targetBatchOf hetReq)) (processedSlots hetDb hetReq) []).1 :=
  claim_C8_processing_order hetDb hetReq 2026 (previewResult hetDb hetReq 2026) rfl

theorem claim_C9_amended_witness :
    (∃ e, autoAssignChildren c9Db c9Req 2026 = Except.error e) ↔
      (jsTruthy c9Req.mode = false ∨ jsTruthy c9Req.targetBatch = false ∨
        (modeOf c9Req ≠ "homogeneous" ∧ modeOf c9Req ≠ "heterogeneous") ∨
        eligibleFamilies c9Db = [] ∨
        studentsInBatch c9Db (targetBatchOf c9Req) = [] ∨
        eligibleSlots c9Db (modeOf c9Req) (targetBatchOf c9Req)
          c9Req.maxChildrenPerFamily = []) :=
  claim_C9_amended c9Db c9Req 2026

/-- C2 witness data: a family whose leader is the very student a commit tries
to add. -/
def c2Fam : FamilyDoc :=
  { id := "FW", title := "Fam W", batch := "B",
    familyLeader := "sX", familyCoLeader := "l2", familySecretary := "l3",
    grandParents := [{ families := [{ father := "wf", mother := "wm", children := [] }] }] }

/-- C2 witness data: the conflicting assignment. -/
def c2Assign : AssignIn :=
  { familyId := "FW", gpIndex := 0, familyIndex := 0, studentId := "sX",
    relationship := "son", birthOrder := 1 }

theorem claim_C2_witness :
    (∃ b ∈ [c2Assign], ∃ fb,
      ([c2Fam].find? (fun x => x.id == b.familyId)) = some fb ∧
      executeAutoAssignChildren [c2Fam] [c2Assign] =
        Except.error ("Student " ++ b.studentId ++ " is already in family " ++ fb.title)) ∧
    executeFinalDb [c2Fam] [c2Assign] = [c2Fam] :=
  (claim_C2_commit_atomicity [c2Fam] [c2Assign] (by decide)).1
    ⟨c2Assign, List.mem_cons_self _ _, c2Fam, rfl, by decide⟩

/-- C10 witness data: two distinct families. -/
def dupFam1 : FamilyDoc :=
  { id := "X1", title := "Fam X1", batch := "B",
    familyLeader := "p1", familyCoLeader := "p2", familySecretary := "p3",
    grandParents := [{ families := [{ father := "xf1", mother := "xm1", children := [] }] }] }

/-- C10 witness data: the second family. -/
def dupFam2 : FamilyDoc :=
  { id := "X2", title := "Fam X2", batch := "B",
    familyLeader := "q1", familyCoLeader := "q2", familySecretary := "q3",
    grandParents := [{ families := [{ father := "xf2", mother := "xm2", children := [] }] }] }

/-- C10 witness data: the same student assigned to family X1. -/
def dupA1 : AssignIn :=
  { familyId := "X1", gpIndex := 0, familyIndex := 0, studentId := "sD",
    relationship := "son", birthOrder := 1 }

/-- C10 witness data: the same student assigned to family X2. -/
def dupA2 : AssignIn :=
  { familyId := "X2", gpIndex := 0, familyIndex := 0, studentId := "sD",
    relationship := "son", birthOrder := 1 }

theorem claim_C10_witness :
    ∃ db' res, executeAutoAssignChildren [dupFam1, dupFam2] [dupA1, dupA2] =
        Except.ok (db', res) ∧
      childEntryOf dupA1 ∈ childrenAt db' dupA1.familyId dupA1.gpIndex dupA1.familyIndex ∧
      childEntryOf dupA2 ∈ childrenAt db' dupA2.familyId dupA2.gpIndex dupA2.familyIndex :=
  claim_C10_cross_family_duplicate [dupFam1, dupFam2] dupA1 dupA2 dupFam1 dupFam2
    rfl rfl (by decide) rfl (by decide) (by decide) (by decide) (by decide)

end AutoAssign
